import Mathlib

/-!
# Janus: filter-change polling and UTXO selection

A shallow embedding of `pkg/transformer/eth_getFilterChanges.go` and
`pkg/transformer/qtum_getUTXOs.go`.

* Go's fixed-width integers are natural numbers and integers with explicit
  wrap-around; `big.Int` is `Int`; `decimal.Decimal` is `ℚ`.
* A Go function returning `(value, error)` returns a `Result`; a runtime abort
  (a failed type assertion, `panic`, a slice length that `makeslice`
  refuses) is the constructor `Result.panicked`.
* The node and the helpers of other packages are the fields of `Qtum` and
  `Env`: the transformer is verified for every node and every helper.
* The filter's `sync.Map` is passed in and out explicitly, together with the
  list of node queries issued, in the order they are issued.
-/

namespace Janus

/-! ## Machine integers -/

/-- Conversion of an integer to `int64`: the value congruent modulo `2^64`
that lies in `[-2^63, 2^63)`. -/
def wrapInt64 (z : Int) : Int := (z + 2 ^ 63) % 2 ^ 64 - 2 ^ 63

/-- Conversion of an integer to `uint64`. -/
def wrapUint64 (z : Int) : Nat := (z % 2 ^ 64).toNat

/-- Method `(*big.Int).Uint64`: the low 64 bits of the absolute value. -/
def bigUint64 (x : Int) : Nat := x.natAbs % 2 ^ 64

/-- Method `(*big.Int).Int64`: the low 64 bits of the absolute value read as
an `int64`, negated (in `int64`) when the number is negative. -/
def bigInt64 (x : Int) : Int :=
  let v := wrapInt64 (bigUint64 x)
  if x < 0 then wrapInt64 (-v) else v

/-- Subtraction of `uint64` values. -/
def uint64Sub (a b : Nat) : Nat := wrapUint64 ((a : Int) - (b : Int))

/-- Addition of `uint64` values. -/
def uint64Add (a b : Nat) : Nat := (a + b) % 2 ^ 64

/-! ## Errors and results -/

/-- The two kinds of `eth.JSONRPCError` the transformer raises. -/
inductive ErrorKind
  | InvalidParams
  | CallbackError
  deriving DecidableEq, Repr

/-- An `eth.JSONRPCError`: its kind and its message. -/
structure JSONRPCError where
  kind : ErrorKind
  message : String
  deriving DecidableEq, Repr

/-- Constructor `eth.NewCallbackError`. -/
def NewCallbackError (message : String) : JSONRPCError := ⟨.CallbackError, message⟩

/-- Constructor `eth.NewInvalidParamsError`. -/
def NewInvalidParamsError (message : String) : JSONRPCError := ⟨.InvalidParams, message⟩

/-- What a call of a Go function `f(...) (resp, err)` does: it returns its two
results, or the goroutine aborts. -/
inductive Result (α : Type)
  | returned (resp : α) (err : Option JSONRPCError)
  | panicked (msg : String)
  deriving DecidableEq, Repr

/-- What a call of a Go helper `f(...) (*T, error)` does: it returns a value and
no error, or nil and an error, or the goroutine aborts. -/
inductive Outcome (α : Type)
  | ok (a : α)
  | error (err : JSONRPCError)
  | panicked (msg : String)
  deriving DecidableEq, Repr

/-! ## Data of the node and of the filter registry -/

/-- A `qtum.SearchLogsTopic`, kept as the list of the topics it accepts. -/
abbrev SearchLogsTopic := List String

/-- A `qtum.SearchLogsRequest`. -/
structure SearchLogsRequest where
  Addresses : List String
  FromBlock : Int
  ToBlock : Int
  Topics : List SearchLogsTopic
  deriving DecidableEq, Repr

/-- A `qtum.TransactionReceipt`, with the one field the transformer reads. -/
structure TransactionReceipt where
  TransactionHash : String
  Log : List String
  deriving DecidableEq, Repr

/-- An `eth.Log`, as produced by the log extraction helper. -/
structure EthLog where
  repr : String
  deriving DecidableEq, Repr

/-- An element of `eth.GetFilterChangesResponse` (a `[]interface{}`): a block
hash for a block filter, a log for a log filter. -/
inductive Item
  | hash (s : String)
  | log (l : EthLog)
  deriving DecidableEq, Repr

/-- The response type `eth.GetFilterChangesResponse`. -/
abbrev GetFilterChangesResponse := List Item

/-- A value stored in the filter's `sync.Map` (an `interface{}`). -/
inductive Value
  | uint64 (n : Nat)
  | topics (ts : List SearchLogsTopic)
  | other (repr : String)
  deriving DecidableEq, Repr

/-- The filter's `Data`, a `sync.Map` with string keys. -/
abbrev SyncMap := String → Option Value

/-- Method `sync.Map.Load`. -/
def SyncMap.Load (m : SyncMap) (key : String) : Option Value := m key

/-- Method `sync.Map.Store`. -/
def SyncMap.Store (m : SyncMap) (key : String) (v : Value) : SyncMap :=
  fun k => if k = key then some v else m k

/-- The filter kinds of `eth.FilterType`; `unknown` stands for every other
value of the type. -/
inductive FilterType
  | NewFilterTy
  | NewBlockFilterTy
  | NewPendingTransactionFilterTy
  | unknown (tag : Nat)
  deriving DecidableEq, Repr

/-- An `eth.NewFilterRequest`: `Address` is the raw JSON of the address
criteria, `none` when the field is nil. -/
structure NewFilterRequest where
  Address : Option String
  deriving DecidableEq, Repr

/-- The filter's `Request` field (an `interface{}`). -/
inductive FilterRequest
  | newFilterRequest (r : NewFilterRequest)
  | other
  deriving DecidableEq, Repr

/-- An `eth.Filter`. -/
structure Filter where
  Type_ : FilterType
  Request : FilterRequest
  Data : SyncMap

/-- An input of a raw transaction: `ID` is the txid of the output it spends. -/
structure Vin where
  ID : String
  VoutN : Nat
  deriving DecidableEq, Repr

/-- The answer of `GetRawTransaction`. -/
structure RawTransaction where
  Vins : List Vin
  deriving DecidableEq, Repr

/-- A `qtum.UTXO`, an entry of the node's answer to `GetAddressUTXOs`. -/
structure UTXO where
  Address : String
  TXID : String
  OutputIndex : Nat
  Script : String
  Satoshis : ℚ
  Height : Int
  IsStake : Bool
  IsBase : Bool
  deriving DecidableEq

/-- Modelled from the spec: the declaration of `eth.UTXOScriptType` is not
among the sources. The spec names the sentinel "ALL", the pseudo-type
`IMMATURE` and the types classified from the script shape. -/
inductive UTXOScriptType
  | ALL_UTXO_TYPES
  | IMMATURE
  | script (name : String)
  deriving DecidableEq, Repr

/-- An `eth.QtumUTXO`, an entry of the response. -/
structure QtumUTXO where
  Address : String
  TXID : String
  Vout : Nat
  Amount : String
  Safe : Bool
  Spendable : Bool
  Confirmations : Int
  Type_ : String
  ScriptPubKey : String
  Height : Nat
  deriving DecidableEq, Repr

/-- An `eth.GetUTXOsRequest`. -/
structure GetUTXOsRequest where
  Address : String
  MinSumAmount : ℚ
  Types : List UTXOScriptType
  deriving DecidableEq

/-- The node behind `*qtum.Qtum`: every query is a function of its request. -/
structure Qtum where
  Chain : String
  GetBlockCount : Except String Int
  GetBlockHash : Int → Except String String
  SearchLogsAndFilterExtraTopics :
    SearchLogsRequest → Except JSONRPCError (List TransactionReceipt)
  GetAddressUTXOs : List String → Except String (List UTXO)
  GetRawMempool : Except String (List String)
  GetRawTransaction : String → Bool → Except String RawTransaction
  /-- The result of `GetMatureBlockHeight`, converted to `int64`. -/
  GetMatureBlockHeight : Int

/-- The helpers of other packages and files that the two transformers call. -/
structure Env where
  AddHexPrefix : String → String
  RemoveHexPrefix : String → String
  isBytesOfString : String → Bool
  /-- Function `json.Unmarshal` into a `string`. -/
  unmarshalString : String → Except String String
  /-- Function `json.Unmarshal` into a `[]string`. -/
  unmarshalStrings : String → Except String (List String)
  ExtractETHLogsFromTransactionReceipt : TransactionReceipt → List String → List EthLog
  convertETHAddress : String → String → Except String String
  convertFromQtumToSatoshis : ℚ → ℚ
  convertFromSatoshisToQtum : ℚ → ℚ
  /-- Method `decimal.Decimal.String`. -/
  decimalString : ℚ → String
  /-- Method `eth.QtumUTXO.GetType`. -/
  GetType : QtumUTXO → UTXOScriptType
  /-- Method `eth.UTXOScriptType.String`. -/
  typeString : UTXOScriptType → String

/-- A query sent to the node. -/
inductive Call
  | GetBlockCount
  | GetBlockHash (blockNumber : Int)
  | SearchLogs (req : SearchLogsRequest)
  deriving DecidableEq, Repr

/-- What a poll of a filter does: its result, the filter's `Data` after the
call, and the node queries issued in order. -/
structure Run where
  result : Result GetFilterChangesResponse
  Data : SyncMap
  calls : List Call

/-! ## `eth_getFilterChanges.go` -/

/-- The loop of `requestBlockFilter` over `hashes`: `n` slots remain, the next
one has index `i`. The error of a failed hash query ends the loop. -/
def fetchHashes (env : Env) (q : Qtum) (lastBlockNumber : Nat) :
    Nat → Nat → Except String (List Item) × List Call
  | 0, _ => (.ok [], [])
  | n + 1, i =>
    let blockNumber : Int := (uint64Add (uint64Add lastBlockNumber i) 1 : Nat)
    match q.GetBlockHash blockNumber with
    | .error e => (.error e, [Call.GetBlockHash blockNumber])
    | .ok resp =>
      let rest := fetchHashes env q lastBlockNumber n (i + 1)
      (rest.1.map (fun hs => Item.hash (env.AddHexPrefix resp) :: hs),
        Call.GetBlockHash blockNumber :: rest.2)

/-- The allocator limit `maxAlloc` of the Go runtime on a 64-bit platform with
48 address bits (linux/amd64). -/
def maxAlloc : Nat := 2 ^ 48

/-- Whether `make([]T, len)`, with `len` a `uint64` and `elemSize` the size of
`T` in bytes, aborts in `makeslice`: the length is not a non-negative `int`,
or the size of the slice exceeds `maxAlloc`. -/
def makesliceAborts (elemSize len : Nat) : Bool :=
  decide (2 ^ 63 ≤ len) || decide (maxAlloc < elemSize * len)

/-- Method `requestBlockFilter`. The slice `hashes` holds `differ` values of
type `interface{}`, of 16 bytes each; `make` aborts when `makeslice` refuses
that length. -/
def requestBlockFilter (env : Env) (q : Qtum) (filter : Filter) : Run :=
  match filter.Data.Load "lastBlockNumber" with
  | none =>
    ⟨.returned [] (some (NewCallbackError "Could not get lastBlockNumber")), filter.Data, []⟩
  | some (.uint64 lastBlockNumber) =>
    match q.GetBlockCount with
    | .error blockErr =>
      ⟨.returned [] (some (NewCallbackError blockErr)), filter.Data, [Call.GetBlockCount]⟩
    | .ok blockCountBigInt =>
      let blockCount := bigUint64 blockCountBigInt
      let differ := uint64Sub blockCount lastBlockNumber
      if makesliceAborts 16 differ then
        ⟨.panicked "makeslice: len out of range", filter.Data, [Call.GetBlockCount]⟩
      else
        match fetchHashes env q lastBlockNumber differ 0 with
        | (.error e, calls) =>
          ⟨.returned [] (some (NewCallbackError e)), filter.Data, Call.GetBlockCount :: calls⟩
        | (.ok hashes, calls) =>
          ⟨.returned hashes none,
            filter.Data.Store "lastBlockNumber" (.uint64 blockCount),
            Call.GetBlockCount :: calls⟩
  | some _ =>
    ⟨.panicked "interface conversion: interface {} is not uint64", filter.Data, []⟩

/-- The address part of `toSearchLogsReq`: no address when the criteria are
nil, one address when they are a JSON string, else the addresses of a JSON
list, every one with its hex prefix removed. -/
def decodeAddresses (env : Env) : Option String → Except String (List String)
  | none => .ok []
  | some raw =>
    if env.isBytesOfString raw then
      match env.unmarshalString raw with
      | .error e => .error e
      | .ok addr => .ok ([addr].map env.RemoveHexPrefix)
    else
      match env.unmarshalStrings raw with
      | .error e => .error e
      | .ok addresses => .ok (addresses.map env.RemoveHexPrefix)

/-- Method `toSearchLogsReq`: the search request for the range `from_`..`to_`,
with the filter's addresses and stored topics. -/
def toSearchLogsReq (env : Env) (filter : Filter) (from_ to_ : Int) :
    Outcome SearchLogsRequest :=
  match filter.Request with
  | .other => .panicked "interface conversion: interface {} is not *eth.NewFilterRequest"
  | .newFilterRequest ethreq =>
    match decodeAddresses env ethreq.Address with
    | .error e => .error (NewInvalidParamsError e)
    | .ok addresses =>
      match filter.Data.Load "topics" with
      | none => .ok ⟨addresses, from_, to_, []⟩
      | some (.topics ts) => .ok ⟨addresses, from_, to_, ts⟩
      | some _ =>
        .panicked "interface conversion: interface {} is not []qtum.SearchLogsTopic"

/-- Method `doSearchLogs`: one log search, then the logs of every receipt, in
receipt order. -/
def doSearchLogs (env : Env) (q : Qtum) (req : SearchLogsRequest) :
    Result GetFilterChangesResponse × List Call :=
  match q.SearchLogsAndFilterExtraTopics req with
  | .error err => (.returned [] (some err), [Call.SearchLogs req])
  | .ok resp =>
    let receiptToResult : TransactionReceipt → List Item := fun receipt =>
      (env.ExtractETHLogsFromTransactionReceipt receipt receipt.Log).map Item.log
    (.returned (resp.foldl (fun results receipt => results ++ receiptToResult receipt) []) none,
      [Call.SearchLogs req])

/-- Method `requestFilter`. -/
def requestFilter (env : Env) (q : Qtum) (filter : Filter) : Run :=
  match filter.Data.Load "lastBlockNumber" with
  | none =>
    ⟨.returned [] (some (NewCallbackError "Could not get lastBlockNumber")), filter.Data, []⟩
  | some (.uint64 lastBlockNumber) =>
    match q.GetBlockCount with
    | .error blockErr =>
      ⟨.returned [] (some (NewCallbackError blockErr)), filter.Data, [Call.GetBlockCount]⟩
    | .ok blockCountBigInt =>
      let blockCount := bigUint64 blockCountBigInt
      let differ := uint64Sub blockCount lastBlockNumber
      if differ = 0 then
        ⟨.returned [] none, filter.Data, [Call.GetBlockCount]⟩
      else
        match toSearchLogsReq env filter (wrapInt64 (uint64Add lastBlockNumber 1 : Nat))
            (wrapInt64 (blockCount : Nat)) with
        | .panicked msg => ⟨.panicked msg, filter.Data, [Call.GetBlockCount]⟩
        | .error err => ⟨.returned [] (some err), filter.Data, [Call.GetBlockCount]⟩
        | .ok searchLogsReq =>
          let r := doSearchLogs env q searchLogsReq
          ⟨r.1, filter.Data, Call.GetBlockCount :: r.2⟩
  | some _ =>
    ⟨.panicked "interface conversion: interface {} is not uint64", filter.Data, []⟩

/-- What `Request` does: its result, the `Data` of the resolved filter after
the call (`none` when no filter was resolved) and the node queries issued. -/
structure RequestRun where
  result : Result GetFilterChangesResponse
  Data : Option SyncMap
  calls : List Call

/-- Method `ProxyETHGetFilterChanges.Request`. The helper `processFilter` of
the package, which resolves the filter of the request, is a parameter. The
`interface{}` result is nil, here the empty list, when an error is returned. -/
def Request (env : Env) (q : Qtum) (processFilter : String → Except JSONRPCError Filter)
    (rawreq : String) : RequestRun :=
  match processFilter rawreq with
  | .error err => ⟨.returned [] (some err), none, []⟩
  | .ok filter =>
    match filter.Type_ with
    | .NewFilterTy =>
      let r := requestFilter env q filter
      ⟨r.result, some r.Data, r.calls⟩
    | .NewBlockFilterTy =>
      let r := requestBlockFilter env q filter
      ⟨r.result, some r.Data, r.calls⟩
    | .NewPendingTransactionFilterTy =>
      ⟨.returned [] (some (NewInvalidParamsError "Unknown filter type")), some filter.Data, []⟩
    | .unknown _ =>
      ⟨.returned [] (some (NewInvalidParamsError "Unknown filter type")), some filter.Data, []⟩

/-! ## `qtum_getUTXOs.go` -/

/-- Function `Contains`. -/
def Contains : List String → String → Bool
  | [], _ => false
  | v :: sl, name => if v = name then true else Contains sl name

/-- Function `toEthResponseType`; the fields it leaves out have Go's zero
values. -/
def toEthResponseType (env : Env) (utxo : UTXO) : QtumUTXO :=
  { Address := utxo.Address
    TXID := utxo.TXID
    Vout := utxo.OutputIndex
    Amount := env.decimalString (env.convertFromSatoshisToQtum utxo.Satoshis)
    Safe := false
    Spendable := false
    Confirmations := 0
    Type_ := ""
    ScriptPubKey := ""
    Height := 0 }

/-- The loop of `request` over the mempool: the `ID` of every input of every
mempool transaction, in order. A failed lookup ends the request. -/
def mempoolInputs (q : Qtum) : List String → Except String (List String)
  | [] => .ok []
  | mempoolHash :: rest =>
    match q.GetRawTransaction mempoolHash false with
    | .error e => .error e
    | .ok qtumTx =>
      match mempoolInputs q rest with
      | .error e => .error e
      | .ok ids => .ok (qtumTx.Vins.map Vin.ID ++ ids)

/-- What one pass of the selection loop does with an entry, up to the line
that sets `Spendable`: `continue`, go on with the entry, or `panic`. -/
inductive Step
  | skip
  | keep (ethUTXO : QtumUTXO)
  | abort (msg : String)
  deriving DecidableEq, Repr

/-- The comparison `blockCount.Int.Cmp(matureAt) <= 0` of the selection loop,
with `matureAt = utxo.Height.Int64() + matureBlockHeight`. -/
def notMatured (blockCount matureBlockHeight : Int) (utxo : UTXO) : Bool :=
  decide (blockCount ≤ bigInt64 utxo.Height + matureBlockHeight)

/-- The body of the selection loop of `request`, from `toEthResponseType` to
`ethUTXO.Spendable = true`. The map `utxoTypes` is the list of its keys. -/
def processUTXO (env : Env) (blockCount matureBlockHeight : Int)
    (mempoolUxtoHashes : List String) (allUtxoTypes : Bool)
    (utxoTypes : List UTXOScriptType) (utxo : UTXO) : Step :=
  let ethUTXO := toEthResponseType env utxo
  let ethUTXO := { ethUTXO with
    Height := wrapUint64 (bigInt64 utxo.Height), ScriptPubKey := utxo.Script }
  let utxoType := env.GetType ethUTXO
  let ethUTXO := { ethUTXO with Type_ := env.typeString utxoType, Safe := true }
  if !allUtxoTypes && !utxoTypes.contains utxoType then .skip
  else
    let ethUTXO :=
      if Contains mempoolUxtoHashes utxo.TXID then { ethUTXO with Safe := false } else ethUTXO
    let immature :=
      (utxo.IsStake || utxo.IsBase) && notMatured blockCount matureBlockHeight utxo
    let ethUTXO := if immature then { ethUTXO with Safe := false } else ethUTXO
    if immature && !allUtxoTypes && !utxoTypes.contains UTXOScriptType.IMMATURE then .skip
    else
      let ethUTXO := { ethUTXO with
        Confirmations := wrapInt64 (bigInt64 blockCount - bigInt64 utxo.Height) }
      if ethUTXO.Confirmations < 0 then
        .abort ("Computed negative confirmations: " ++ toString (bigInt64 blockCount) ++ " - "
          ++ toString (bigInt64 utxo.Height) ++ " = " ++ toString ethUTXO.Confirmations ++ "\n")
      else .keep { ethUTXO with Spendable := true }

/-- The message of the error of an unreachable minimum sum. -/
def minimumSumMessage : String :=
  "required minimum amount is greater than total amount of UTXOs"

/-- The selection loop of `request` and the two returns after it: `utxos` and
`minUTXOsSum` are the list and the sum accumulated so far. -/
def selectLoop (env : Env) (blockCount matureBlockHeight : Int)
    (mempoolUxtoHashes : List String) (allUtxoTypes : Bool)
    (utxoTypes : List UTXOScriptType) (queryingAll : Bool) (minimumSum : ℚ) :
    List UTXO → List QtumUTXO → ℚ → Result (Option (List QtumUTXO))
  | [], utxos, _ =>
    if queryingAll then .returned (some utxos) none
    else .returned none (some (NewCallbackError minimumSumMessage))
  | utxo :: rest, utxos, minUTXOsSum =>
    match processUTXO env blockCount matureBlockHeight mempoolUxtoHashes allUtxoTypes
        utxoTypes utxo with
    | .skip =>
      selectLoop env blockCount matureBlockHeight mempoolUxtoHashes allUtxoTypes utxoTypes
        queryingAll minimumSum rest utxos minUTXOsSum
    | .abort msg => .panicked msg
    | .keep ethUTXO =>
      let minUTXOsSum := if ethUTXO.Safe then minUTXOsSum + utxo.Satoshis else minUTXOsSum
      let utxos := utxos ++ [ethUTXO]
      if !queryingAll && decide (minimumSum ≤ minUTXOsSum) then .returned (some utxos) none
      else
        selectLoop env blockCount matureBlockHeight mempoolUxtoHashes allUtxoTypes utxoTypes
          queryingAll minimumSum rest utxos minUTXOsSum

/-- The flag `allUtxoTypes` of `request`: no type is given, or the first one
is `ALL_UTXO_TYPES`. -/
def allUtxoTypesOf : List UTXOScriptType → Bool
  | [] => true
  | typ :: _ => decide (typ = UTXOScriptType.ALL_UTXO_TYPES)

/-- Method `ProxyQTUMGetUTXOs.request`. -/
def request (env : Env) (q : Qtum) (params : GetUTXOsRequest) :
    Result (Option (List QtumUTXO)) :=
  match env.convertETHAddress (env.RemoveHexPrefix params.Address) q.Chain with
  | .error _ =>
    .returned none
      (some (NewInvalidParamsError "couldn't convert Ethereum address to Qtum address"))
  | .ok address =>
    match q.GetAddressUTXOs [address] with
    | .error e => .returned none (some (NewCallbackError e))
    | .ok resp =>
      match q.GetBlockCount with
      | .error e => .returned none (some (NewCallbackError e))
      | .ok blockCount =>
        match q.GetRawMempool with
        | .error e => .returned none (some (NewCallbackError e))
        | .ok rawMempool =>
          match mempoolInputs q rawMempool with
          | .error e => .returned none (some (NewCallbackError e))
          | .ok mempoolUxtoHashes =>
            let matureBlockHeight := q.GetMatureBlockHeight
            let minimumSum := env.convertFromQtumToSatoshis params.MinSumAmount
            let queryingAll := decide (minimumSum = 0)
            selectLoop env blockCount matureBlockHeight mempoolUxtoHashes
              (allUtxoTypesOf params.Types) params.Types queryingAll minimumSum resp [] 0

/-! ## Sample node, helpers and filters -/

/-- A helper environment for the examples: hex prefixes are added and removed
literally, a raw address decodes as a string when it is quoted and as a list
when it is the one list used below. -/
def sampleEnv : Env where
  AddHexPrefix := fun s => "0x" ++ s
  RemoveHexPrefix := fun s => if s = "0xaa" then "aa" else s
  isBytesOfString := fun raw => raw = "\"0xaa\""
  unmarshalString := fun raw =>
    if raw = "\"0xaa\"" then .ok "0xaa" else .error "json: cannot unmarshal"
  unmarshalStrings := fun raw =>
    if raw = "[\"0xaa\"]" then .ok ["0xaa"] else .error "json: cannot unmarshal"
  ExtractETHLogsFromTransactionReceipt := fun _ logs => logs.map EthLog.mk
  convertETHAddress := fun a _ => .ok a
  convertFromQtumToSatoshis := fun x => x * 100000000
  convertFromSatoshisToQtum := fun x => x / 100000000
  decimalString := fun _ => "amount"
  GetType := fun u => .script u.ScriptPubKey
  typeString := fun _ => "type"

/-- The hash the sample node reports for a block. -/
def sampleHash (n : Int) : String :=
  if n = 11 then "b11" else if n = 12 then "b12" else if n = 13 then "b13" else "b"

/-- A node at the given height that answers every query and holds no UTXO and
no mempool transaction. -/
def sampleNode (height : Int) : Qtum where
  Chain := "regtest"
  GetBlockCount := .ok height
  GetBlockHash := fun n => .ok (sampleHash n)
  SearchLogsAndFilterExtraTopics := fun _ => .ok []
  GetAddressUTXOs := fun _ => .ok []
  GetRawMempool := .ok []
  GetRawTransaction := fun _ _ => .ok ⟨[]⟩
  GetMatureBlockHeight := 500

/-- A block filter whose cursor is the given height. -/
def blockFilterAt (lastBlockNumber : Nat) : Filter where
  Type_ := .NewBlockFilterTy
  Request := .other
  Data := fun k => if k = "lastBlockNumber" then some (.uint64 lastBlockNumber) else none

/-- The log searches among the node queries of a run, in order. -/
def logSearches : List Call → List SearchLogsRequest
  | [] => []
  | Call.SearchLogs req :: calls => req :: logSearches calls
  | _ :: calls => logSearches calls

/-- A log filter whose cursor is the given height, with the given raw address
criteria and no stored topics. -/
def logFilterAt (lastBlockNumber : Nat) (address : Option String) : Filter where
  Type_ := .NewFilterTy
  Request := .newFilterRequest ⟨address⟩
  Data := fun k => if k = "lastBlockNumber" then some (.uint64 lastBlockNumber) else none

/-! ## Vocabulary of the selection claims -/

/-- The entries the selection loop keeps, each next to the node entry it comes
from, in node order: the entries on which the loop body reaches
`ethUTXO.Spendable = true`. -/
def keptPairs (env : Env) (blockCount matureBlockHeight : Int)
    (mempoolUxtoHashes : List String) (allUtxoTypes : Bool)
    (utxoTypes : List UTXOScriptType) : List UTXO → List (UTXO × QtumUTXO)
  | [] => []
  | utxo :: rest =>
    match processUTXO env blockCount matureBlockHeight mempoolUxtoHashes allUtxoTypes
        utxoTypes utxo with
    | .keep ethUTXO =>
      (utxo, ethUTXO) ::
        keptPairs env blockCount matureBlockHeight mempoolUxtoHashes allUtxoTypes utxoTypes rest
    | _ => keptPairs env blockCount matureBlockHeight mempoolUxtoHashes allUtxoTypes utxoTypes rest

/-- The sum of the values of the safe entries of a list of kept entries. -/
def safeSum : List (UTXO × QtumUTXO) → ℚ
  | [] => 0
  | p :: ps => (if p.2.Safe then p.1.Satoshis else 0) + safeSum ps

/-- The node answers every query of `request`: `resp` is its UTXO list for the
converted address, `blockCount` its height and `mempoolUxtoHashes` the inputs
of its mempool transactions. -/
def NodeAnswers (env : Env) (q : Qtum) (params : GetUTXOsRequest) (resp : List UTXO)
    (blockCount : Int) (mempoolUxtoHashes : List String) : Prop :=
  ∃ address rawMempool,
    env.convertETHAddress (env.RemoveHexPrefix params.Address) q.Chain = .ok address
      ∧ q.GetAddressUTXOs [address] = .ok resp
      ∧ q.GetBlockCount = .ok blockCount
      ∧ q.GetRawMempool = .ok rawMempool
      ∧ mempoolInputs q rawMempool = .ok mempoolUxtoHashes

/-- A confirmed pay-to-pubkey-hash entry of the sample wallet. -/
def sampleUTXO (txid : String) (satoshis : ℚ) (height : Int) : UTXO where
  Address := "qAddr"
  TXID := txid
  OutputIndex := 0
  Script := "P2PKH"
  Satoshis := satoshis
  Height := height
  IsStake := false
  IsBase := false

/-- A node at the given height whose wallet holds the given entries and whose
mempool holds one transaction, spending an output of transaction `spent`. -/
def walletNode (height : Int) (utxos : List UTXO) : Qtum where
  Chain := "regtest"
  GetBlockCount := .ok height
  GetBlockHash := fun n => .ok (sampleHash n)
  SearchLogsAndFilterExtraTopics := fun _ => .ok []
  GetAddressUTXOs := fun _ => .ok utxos
  GetRawMempool := .ok ["m1"]
  GetRawTransaction := fun _ _ => .ok ⟨[⟨"spent", 0⟩]⟩
  GetMatureBlockHeight := 500

/-- Three entries of values 3, 5 and 2 satoshis, confirmed at height 100. -/
def sampleUTXOs : List UTXO :=
  [sampleUTXO "a" 3 100, sampleUTXO "b" 5 100, sampleUTXO "c" 2 100]

/-- The response entry the loop makes of `sampleUTXO txid _ 100` at height 105
when the entry is not spent in the mempool. -/
def sampleEntry (txid : String) : QtumUTXO where
  Address := "qAddr"
  TXID := txid
  Vout := 0
  Amount := "amount"
  Safe := true
  Spendable := true
  Confirmations := 5
  Type_ := "type"
  ScriptPubKey := "P2PKH"
  Height := 100

/-- A request for the sample wallet with the given minimum sum, in satoshis,
and every type accepted. -/
def sampleParams (satoshis : ℚ) : GetUTXOsRequest where
  Address := "0xaa"
  MinSumAmount := satoshis / 100000000
  Types := []

/-- A stake output of the sample wallet, created at height 100. -/
def sampleStake : UTXO where
  Address := "qAddr"
  TXID := "s"
  OutputIndex := 1
  Script := "P2PK"
  Satoshis := 4
  Height := 100
  IsStake := true
  IsBase := false

/-- The script type the loop body classifies an entry as: `GetType` of the
response entry with its height and script set. -/
def scriptTypeOf (env : Env) (utxo : UTXO) : UTXOScriptType :=
  env.GetType { toEthResponseType env utxo with
    Height := wrapUint64 (bigInt64 utxo.Height), ScriptPubKey := utxo.Script }

/-- A node at the given height that answers every query but the hash of
block 12. -/
def brokenHashNode (height : Int) : Qtum :=
  { sampleNode height with
    GetBlockHash := fun n => if n = 12 then .error "block not found" else .ok (sampleHash n) }

/-- A filter of the pending-transaction kind, with the cursor 5. -/
def pendingFilter : Filter where
  Type_ := .NewPendingTransactionFilterTy
  Request := .other
  Data := fun k => if k = "lastBlockNumber" then some (.uint64 5) else none

/-- A request like `sampleParams` that accepts the listed types only. -/
def typedParams (satoshis : ℚ) (types : List UTXOScriptType) : GetUTXOsRequest where
  Address := "0xaa"
  MinSumAmount := satoshis / 100000000
  Types := types

/-- The response entry the loop makes of `sampleStake` at height 105, where
the stake output is still immature. -/
def sampleStakeEntry : QtumUTXO where
  Address := "qAddr"
  TXID := "s"
  Vout := 1
  Amount := "amount"
  Safe := false
  Spendable := true
  Confirmations := 5
  Type_ := "type"
  ScriptPubKey := "P2PK"
  Height := 100

/-! ## Machine integers: the values in range -/

theorem bigUint64_lt (x : Int) : bigUint64 x < 2 ^ 64 :=
  Nat.mod_lt _ (by norm_num)

theorem bigUint64_natCast {n : Nat} (h : n < 2 ^ 64) : bigUint64 (n : Int) = n := by
  unfold bigUint64
  rw [Int.natAbs_ofNat, Nat.mod_eq_of_lt h]

theorem uint64Sub_of_le {a b : Nat} (hab : b ≤ a) (ha : a < 2 ^ 64) :
    uint64Sub a b = a - b := by
  unfold uint64Sub wrapUint64
  have h0 : (0 : Int) ≤ (a : Int) - b := by omega
  have h1 : (a : Int) - b < 2 ^ 64 := by omega
  rw [Int.emod_eq_of_lt h0 h1]
  omega

theorem uint64Add_of_lt {a b : Nat} (h : a + b < 2 ^ 64) : uint64Add a b = a + b := by
  unfold uint64Add
  exact Nat.mod_eq_of_lt h

theorem wrapInt64_of_range {z : Int} (h0 : -2 ^ 63 ≤ z) (h1 : z < 2 ^ 63) :
    wrapInt64 z = z := by
  unfold wrapInt64
  rw [Int.emod_eq_of_lt (by omega) (by omega)]
  omega

theorem bigInt64_of_range {x : Int} (h0 : 0 ≤ x) (h1 : x < 2 ^ 63) : bigInt64 x = x := by
  unfold bigInt64 bigUint64
  have hx : (x.natAbs : Int) = x := Int.natAbs_of_nonneg h0
  have hlt : x.natAbs < 2 ^ 64 := by omega
  simp only [Nat.mod_eq_of_lt hlt, hx, not_lt.mpr h0, if_false]
  exact wrapInt64_of_range (by omega) h1

/-! ## Block filter -/

/-- A slice of `interface{}` whose size does not exceed `maxAlloc` is made. -/
theorem makesliceAborts_eq_false {n : Nat} (h : 16 * n ≤ maxAlloc) :
    makesliceAborts 16 n = false := by
  unfold maxAlloc at h
  have h1 : ¬ (2 ^ 63 ≤ n) := by omega
  have h2 : ¬ (maxAlloc < 16 * n) := by unfold maxAlloc; omega
  unfold makesliceAborts
  rw [decide_eq_false h1, decide_eq_false h2]
  rfl

/-- The loop over `hashes` when every hash query succeeds: it fetches the
blocks after the cursor one by one, in ascending order. -/
theorem fetchHashes_ok (env : Env) (q : Qtum) (L : Nat) (hashOf : Nat → String) :
    ∀ (n i : Nat), L + i + n < 2 ^ 64 →
      (∀ j, i ≤ j → j < i + n → q.GetBlockHash ((L + 1 + j : Nat) : Int) = .ok (hashOf (L + 1 + j))) →
      fetchHashes env q L n i =
        (.ok ((List.range n).map fun k => Item.hash (env.AddHexPrefix (hashOf (L + 1 + (i + k))))),
          (List.range n).map fun k => Call.GetBlockHash ((L + 1 + (i + k) : Nat) : Int))
  | 0, _, _, _ => rfl
  | n + 1, i, hlt, hq => by
    have e1 : uint64Add (uint64Add L i) 1 = L + 1 + i := by
      have e0 : uint64Add L i = L + i := uint64Add_of_lt (by omega)
      rw [e0, uint64Add_of_lt (by omega)]; omega
    have ih := fetchHashes_ok env q L hashOf n (i + 1) (by omega)
      (fun j h1 h2 => hq j (by omega) (by omega))
    have h0 := hq i (Nat.le_refl i) (by omega)
    simp only [fetchHashes, e1, h0, ih, List.range_succ_eq_map, List.map_cons, List.map_map,
      Except.map, Nat.add_zero]
    refine Prod.ext ?_ ?_ <;> simp [Function.comp_def, Nat.add_assoc, Nat.add_comm 1]
    intro a _
    omega

/-- C1 (block-filter completeness): for a block filter with cursor `L`, a
current height `H ≥ L` (with `H - L` a length `make` accepts: the `H - L`
values of 16 bytes do not exceed the allocator limit) and a node that
answers the hash query of every height in `L+1..H`, `requestBlockFilter`
returns without error exactly `H - L` entries, the `i`-th being the
hex-prefixed hash of block `L + 1 + i`, and the stored `lastBlockNumber` is
`H` afterwards. -/
theorem requestBlockFilter_complete (env : Env) (q : Qtum) (filter : Filter)
    (L H : Nat) (blockCountBigInt : Int) (hashOf : Nat → String)
    (hL : filter.Data.Load "lastBlockNumber" = some (.uint64 L))
    (hc : q.GetBlockCount = .ok blockCountBigInt)
    (hH : bigUint64 blockCountBigInt = H)
    (hLH : L ≤ H) (hlen : 16 * (H - L) ≤ maxAlloc)
    (hq : ∀ n : Nat, L < n → n ≤ H → q.GetBlockHash (n : Int) = .ok (hashOf n)) :
    (requestBlockFilter env q filter).result =
        .returned ((List.range (H - L)).map fun i =>
          Item.hash (env.AddHexPrefix (hashOf (L + 1 + i)))) none
      ∧ ((List.range (H - L)).map fun i =>
          Item.hash (env.AddHexPrefix (hashOf (L + 1 + i)))).length = H - L
      ∧ (requestBlockFilter env q filter).Data.Load "lastBlockNumber" = some (.uint64 H) := by
  have hH64 : H < 2 ^ 64 := hH ▸ bigUint64_lt blockCountBigInt
  have hd : uint64Sub H L = H - L := uint64Sub_of_le hLH hH64
  have hf := fetchHashes_ok env q L hashOf (H - L) 0 (by omega)
    (fun j _ h2 => hq (L + 1 + j) (by omega) (by omega))
  simp only [Nat.zero_add] at hf
  have hnot : makesliceAborts 16 (H - L) = false := makesliceAborts_eq_false hlen
  refine ⟨?_, by simp, ?_⟩
  all_goals simp only [requestBlockFilter, hL, hc, hH, hd, hnot, Bool.false_eq_true, if_false, hf]
  simp [SyncMap.Load, SyncMap.Store]

/-- C1, witness: cursor 10 and height 13 give the hashes of blocks 11, 12 and
13, in this order, and the cursor 13. -/
theorem requestBlockFilter_complete_witness :
    (requestBlockFilter sampleEnv (sampleNode 13) (blockFilterAt 10)).result =
        .returned [Item.hash "0xb11", Item.hash "0xb12", Item.hash "0xb13"] none
      ∧ (requestBlockFilter sampleEnv (sampleNode 13) (blockFilterAt 10)).Data.Load
          "lastBlockNumber" = some (.uint64 13) := by
  have h := requestBlockFilter_complete sampleEnv (sampleNode 13) (blockFilterAt 10) 10 13 13
    (fun n => sampleHash n) rfl rfl (by decide) (by decide) (by decide) (fun _ _ _ => rfl)
  refine ⟨h.1.trans ?_, h.2.2⟩
  decide

/-! ## Log filter -/

theorem logSearches_getBlockCount_cons (calls : List Call) :
    logSearches (Call.GetBlockCount :: calls) = logSearches calls := rfl

theorem doSearchLogs_calls (env : Env) (q : Qtum) (req : SearchLogsRequest) :
    (doSearchLogs env q req).2 = [Call.SearchLogs req] := by
  unfold doSearchLogs
  split <;> rfl

/-- C2, as stated, fails: a log filter with cursor 5 whose stored address
criteria are the JSON number `5`, polled at height 8, is answered with
`InvalidParams` and no log search is issued. -/
theorem requestFilter_undecodable_address_no_search :
    logSearches (requestFilter sampleEnv (sampleNode 8) (logFilterAt 5 (some "5"))).calls = []
      ∧ (requestFilter sampleEnv (sampleNode 8) (logFilterAt 5 (some "5"))).result =
        .returned [] (some (NewInvalidParamsError "json: cannot unmarshal")) := by
  decide

/-- C2, amended (log-filter range exactness): for a log filter with cursor
`L` whose address criteria decode to `addresses` and whose stored topics are
`ts`, and a current height `H > L` below `2^63`, `requestFilter` issues
exactly one log search, and its request is the range `L+1 .. H` with these
addresses and topics. -/
theorem requestFilter_search_range (env : Env) (q : Qtum) (filter : Filter)
    (L H : Nat) (blockCountBigInt : Int) (ethreq : NewFilterRequest)
    (addresses : List String) (ts : List SearchLogsTopic)
    (hL : filter.Data.Load "lastBlockNumber" = some (.uint64 L))
    (hc : q.GetBlockCount = .ok blockCountBigInt)
    (hH : bigUint64 blockCountBigInt = H)
    (hLH : L < H) (hr : H < 2 ^ 63)
    (hreq : filter.Request = .newFilterRequest ethreq)
    (ha : decodeAddresses env ethreq.Address = .ok addresses)
    (ht : filter.Data.Load "topics" = some (.topics ts)
      ∨ (filter.Data.Load "topics" = none ∧ ts = [])) :
    logSearches (requestFilter env q filter).calls =
        [⟨addresses, (L : Int) + 1, (H : Int), ts⟩]
      ∧ (requestFilter env q filter).calls =
        [Call.GetBlockCount, Call.SearchLogs ⟨addresses, (L : Int) + 1, (H : Int), ts⟩] := by
  have hd : uint64Sub H L ≠ 0 := by
    rw [uint64Sub_of_le (Nat.le_of_lt hLH) (by omega)]; omega
  have e1 : wrapInt64 ((uint64Add L 1 : Nat) : Int) = (L : Int) + 1 := by
    rw [uint64Add_of_lt (by omega), wrapInt64_of_range (by omega) (by omega)]; simp
  have e2 : wrapInt64 ((H : Nat) : Int) = (H : Int) :=
    wrapInt64_of_range (by omega) (by omega)
  have hreqv : toSearchLogsReq env filter ((L : Int) + 1) (H : Int) =
      .ok ⟨addresses, (L : Int) + 1, (H : Int), ts⟩ := by
    unfold toSearchLogsReq
    rcases ht with ht | ⟨ht, rfl⟩ <;> simp only [hreq, ha, ht]
  have hcalls : (requestFilter env q filter).calls =
      [Call.GetBlockCount, Call.SearchLogs ⟨addresses, (L : Int) + 1, (H : Int), ts⟩] := by
    simp only [requestFilter, hL, hc, hH, hd, if_false, e1, e2, hreqv, doSearchLogs_calls]
  exact ⟨by rw [hcalls]; rfl, hcalls⟩

/-- C2, witness: cursor 5 and height 8 give one search, over the blocks 6
to 8. -/
theorem requestFilter_search_range_witness :
    logSearches (requestFilter sampleEnv (sampleNode 8)
        (logFilterAt 5 (some "[\"0xaa\"]"))).calls = [⟨["aa"], 6, 8, []⟩] :=
  (requestFilter_search_range sampleEnv (sampleNode 8) (logFilterAt 5 (some "[\"0xaa\"]"))
    5 8 8 ⟨some "[\"0xaa\"]"⟩ ["aa"] [] rfl rfl rfl (by decide) (by norm_num) rfl
    rfl (Or.inr ⟨rfl, rfl⟩)).1

/-- C3, the code at the failing input: a log filter with cursor 5 is polled
at height 8 and searches the blocks 6 to 8; polled again at height 10, with
the `Data` the first poll left, it searches the blocks 6 to 10, not 9 to 10. -/
theorem requestFilter_second_poll_restarts :
    logSearches (requestFilter sampleEnv (sampleNode 8) (logFilterAt 5 none)).calls
        = [⟨[], 6, 8, []⟩]
      ∧ logSearches (requestFilter sampleEnv (sampleNode 10)
          { logFilterAt 5 none with
            Data := (requestFilter sampleEnv (sampleNode 8) (logFilterAt 5 none)).Data }).calls
        = [⟨[], 6, 10, []⟩] := by
  decide

/-- C4 (log-filter poll leaves the cursor unchanged): whatever `requestFilter`
does, an empty answer, a search, an error or an abort, the filter's `Data`,
and so its `lastBlockNumber`, is after the call what it was before. -/
theorem requestFilter_data_unchanged (env : Env) (q : Qtum) (filter : Filter) :
    (requestFilter env q filter).Data = filter.Data
      ∧ (requestFilter env q filter).Data.Load "lastBlockNumber"
        = filter.Data.Load "lastBlockNumber" := by
  have h : (requestFilter env q filter).Data = filter.Data := by
    unfold requestFilter
    split
    · rfl
    · split
      · rfl
      · dsimp only
        split
        · rfl
        · split <;> rfl
    · rfl
  exact ⟨h, by rw [h]⟩

/-- C5 (log-filter no-op): for a log filter whose cursor equals the current
height, `requestFilter` returns the empty sequence and no error, issues no log
search and leaves `Data` as it was. -/
theorem requestFilter_noop (env : Env) (q : Qtum) (filter : Filter)
    (L : Nat) (blockCountBigInt : Int)
    (hL : filter.Data.Load "lastBlockNumber" = some (.uint64 L))
    (hc : q.GetBlockCount = .ok blockCountBigInt)
    (hH : bigUint64 blockCountBigInt = L) :
    (requestFilter env q filter).result = .returned [] none
      ∧ logSearches (requestFilter env q filter).calls = []
      ∧ (requestFilter env q filter).Data = filter.Data := by
  have hL64 : L < 2 ^ 64 := hH ▸ bigUint64_lt blockCountBigInt
  have hd : uint64Sub L L = 0 := by
    rw [uint64Sub_of_le (Nat.le_refl L) hL64]; omega
  refine ⟨?_, ?_, ?_⟩
  all_goals simp only [requestFilter, hL, hc, hH, hd, if_true]
  rfl

/-- C5, witness: a log filter with cursor 8 polled at height 8. -/
theorem requestFilter_noop_witness :
    (requestFilter sampleEnv (sampleNode 8) (logFilterAt 8 none)).result = .returned [] none
      ∧ logSearches (requestFilter sampleEnv (sampleNode 8) (logFilterAt 8 none)).calls = []
      ∧ (requestFilter sampleEnv (sampleNode 8) (logFilterAt 8 none)).Data
        = (logFilterAt 8 none).Data :=
  requestFilter_noop sampleEnv (sampleNode 8) (logFilterAt 8 none) 8 8 rfl rfl rfl

/-! ## UTXO selection: the loop -/

section Loop

variable (env : Env) (blockCount matureBlockHeight : Int) (mempoolUxtoHashes : List String)
  (allUtxoTypes : Bool) (utxoTypes : List UTXOScriptType)

theorem selectLoop_skip (queryingAll : Bool) (minimumSum : ℚ) (utxo : UTXO)
    (rest : List UTXO) (utxos : List QtumUTXO) (sum : ℚ)
    (h : processUTXO env blockCount matureBlockHeight mempoolUxtoHashes allUtxoTypes
      utxoTypes utxo = .skip) :
    selectLoop env blockCount matureBlockHeight mempoolUxtoHashes allUtxoTypes utxoTypes
        queryingAll minimumSum (utxo :: rest) utxos sum
      = selectLoop env blockCount matureBlockHeight mempoolUxtoHashes allUtxoTypes utxoTypes
        queryingAll minimumSum rest utxos sum := by
  simp only [selectLoop, h]

theorem selectLoop_abort (queryingAll : Bool) (minimumSum : ℚ) (utxo : UTXO)
    (rest : List UTXO) (utxos : List QtumUTXO) (sum : ℚ) (msg : String)
    (h : processUTXO env blockCount matureBlockHeight mempoolUxtoHashes allUtxoTypes
      utxoTypes utxo = .abort msg) :
    selectLoop env blockCount matureBlockHeight mempoolUxtoHashes allUtxoTypes utxoTypes
        queryingAll minimumSum (utxo :: rest) utxos sum = .panicked msg := by
  simp only [selectLoop, h]

theorem selectLoop_keep (queryingAll : Bool) (minimumSum : ℚ) (utxo : UTXO)
    (rest : List UTXO) (utxos : List QtumUTXO) (sum : ℚ) (ethUTXO : QtumUTXO)
    (h : processUTXO env blockCount matureBlockHeight mempoolUxtoHashes allUtxoTypes
      utxoTypes utxo = .keep ethUTXO) :
    selectLoop env blockCount matureBlockHeight mempoolUxtoHashes allUtxoTypes utxoTypes
        queryingAll minimumSum (utxo :: rest) utxos sum
      = if (!queryingAll && decide (minimumSum
            ≤ (if ethUTXO.Safe then sum + utxo.Satoshis else sum))) = true then
          .returned (some (utxos ++ [ethUTXO])) none
        else
          selectLoop env blockCount matureBlockHeight mempoolUxtoHashes allUtxoTypes utxoTypes
            queryingAll minimumSum rest (utxos ++ [ethUTXO])
            (if ethUTXO.Safe then sum + utxo.Satoshis else sum) := by
  simp only [selectLoop, h]

theorem selectLoop_keep_greedy (minimumSum : ℚ) (utxo : UTXO)
    (rest : List UTXO) (utxos : List QtumUTXO) (sum : ℚ) (ethUTXO : QtumUTXO)
    (h : processUTXO env blockCount matureBlockHeight mempoolUxtoHashes allUtxoTypes
      utxoTypes utxo = .keep ethUTXO) :
    selectLoop env blockCount matureBlockHeight mempoolUxtoHashes allUtxoTypes utxoTypes
        false minimumSum (utxo :: rest) utxos sum
      = if minimumSum ≤ sum + (if ethUTXO.Safe then utxo.Satoshis else 0) then
          .returned (some (utxos ++ [ethUTXO])) none
        else
          selectLoop env blockCount matureBlockHeight mempoolUxtoHashes allUtxoTypes utxoTypes
            false minimumSum rest (utxos ++ [ethUTXO])
            (sum + (if ethUTXO.Safe then utxo.Satoshis else 0)) := by
  have e : (if ethUTXO.Safe then sum + utxo.Satoshis else sum)
      = sum + (if ethUTXO.Safe then utxo.Satoshis else 0) := by
    split <;> simp
  simp only [selectLoop, h, e, Bool.not_false, Bool.true_and, decide_eq_true_eq]

theorem selectLoop_keep_all (minimumSum : ℚ) (utxo : UTXO)
    (rest : List UTXO) (utxos : List QtumUTXO) (sum : ℚ) (ethUTXO : QtumUTXO)
    (h : processUTXO env blockCount matureBlockHeight mempoolUxtoHashes allUtxoTypes
      utxoTypes utxo = .keep ethUTXO) :
    selectLoop env blockCount matureBlockHeight mempoolUxtoHashes allUtxoTypes utxoTypes
        true minimumSum (utxo :: rest) utxos sum
      = selectLoop env blockCount matureBlockHeight mempoolUxtoHashes allUtxoTypes utxoTypes
          true minimumSum rest (utxos ++ [ethUTXO])
          (sum + (if ethUTXO.Safe then utxo.Satoshis else 0)) := by
  have e : (if ethUTXO.Safe then sum + utxo.Satoshis else sum)
      = sum + (if ethUTXO.Safe then utxo.Satoshis else 0) := by
    split <;> simp
  simp [selectLoop, h, e]

theorem keptPairs_keep (utxo : UTXO) (rest : List UTXO) (ethUTXO : QtumUTXO)
    (h : processUTXO env blockCount matureBlockHeight mempoolUxtoHashes allUtxoTypes
      utxoTypes utxo = .keep ethUTXO) :
    keptPairs env blockCount matureBlockHeight mempoolUxtoHashes allUtxoTypes utxoTypes
        (utxo :: rest)
      = (utxo, ethUTXO) ::
        keptPairs env blockCount matureBlockHeight mempoolUxtoHashes allUtxoTypes utxoTypes
          rest := by
  simp only [keptPairs, h]

theorem keptPairs_skip (utxo : UTXO) (rest : List UTXO)
    (h : processUTXO env blockCount matureBlockHeight mempoolUxtoHashes allUtxoTypes
      utxoTypes utxo = .skip) :
    keptPairs env blockCount matureBlockHeight mempoolUxtoHashes allUtxoTypes utxoTypes
        (utxo :: rest)
      = keptPairs env blockCount matureBlockHeight mempoolUxtoHashes allUtxoTypes utxoTypes
          rest := by
  simp only [keptPairs, h]

/-- Every kept pair is a node entry with what the loop body makes of it. -/
theorem mem_keptPairs {p : UTXO × QtumUTXO} :
    ∀ {l : List UTXO},
      p ∈ keptPairs env blockCount matureBlockHeight mempoolUxtoHashes allUtxoTypes utxoTypes l →
      p.1 ∈ l ∧ processUTXO env blockCount matureBlockHeight mempoolUxtoHashes allUtxoTypes
        utxoTypes p.1 = .keep p.2
  | [], h => by simp [keptPairs] at h
  | utxo :: rest, h => by
    cases hp : processUTXO env blockCount matureBlockHeight mempoolUxtoHashes allUtxoTypes
        utxoTypes utxo with
    | keep ethUTXO =>
      rw [keptPairs_keep _ _ _ _ _ _ _ _ _ hp, List.mem_cons] at h
      rcases h with rfl | h
      · exact ⟨List.mem_cons_self _ _, hp⟩
      · exact ⟨List.mem_cons_of_mem _ (mem_keptPairs h).1, (mem_keptPairs h).2⟩
    | skip =>
      rw [keptPairs_skip _ _ _ _ _ _ _ _ hp] at h
      exact ⟨List.mem_cons_of_mem _ (mem_keptPairs h).1, (mem_keptPairs h).2⟩
    | abort msg =>
      have e : keptPairs env blockCount matureBlockHeight mempoolUxtoHashes allUtxoTypes
          utxoTypes (utxo :: rest) = keptPairs env blockCount matureBlockHeight
          mempoolUxtoHashes allUtxoTypes utxoTypes rest := by
        simp only [keptPairs, hp]
      rw [e] at h
      exact ⟨List.mem_cons_of_mem _ (mem_keptPairs h).1, (mem_keptPairs h).2⟩

/-- Greedy mode, from any point of the loop with the sum still below the
minimum: a successful return cuts the remaining entries right after the first
kept entry at which the sum of the safe values reaches the minimum, and does
not depend on the entries after the cut. -/
theorem selectLoop_greedy (minimumSum : ℚ) :
    ∀ (l : List UTXO) (utxos : List QtumUTXO) (sum : ℚ) (out : List QtumUTXO),
      sum < minimumSum →
      selectLoop env blockCount matureBlockHeight mempoolUxtoHashes allUtxoTypes utxoTypes
        false minimumSum l utxos sum = .returned (some out) none →
      ∃ pre post, l = pre ++ post
        ∧ out = utxos ++ (keptPairs env blockCount matureBlockHeight mempoolUxtoHashes
            allUtxoTypes utxoTypes pre).map Prod.snd
        ∧ keptPairs env blockCount matureBlockHeight mempoolUxtoHashes allUtxoTypes
            utxoTypes pre ≠ []
        ∧ minimumSum ≤ sum + safeSum (keptPairs env blockCount matureBlockHeight
            mempoolUxtoHashes allUtxoTypes utxoTypes pre)
        ∧ (∀ n, n < (keptPairs env blockCount matureBlockHeight mempoolUxtoHashes
              allUtxoTypes utxoTypes pre).length →
            sum + safeSum ((keptPairs env blockCount matureBlockHeight mempoolUxtoHashes
              allUtxoTypes utxoTypes pre).take n) < minimumSum)
        ∧ ∀ post', selectLoop env blockCount matureBlockHeight mempoolUxtoHashes allUtxoTypes
            utxoTypes false minimumSum (pre ++ post') utxos sum = .returned (some out) none
  | [], utxos, sum, out, _, h => by
    simp [selectLoop] at h
  | utxo :: rest, utxos, sum, out, hlt, h => by
    cases hp : processUTXO env blockCount matureBlockHeight mempoolUxtoHashes allUtxoTypes
        utxoTypes utxo with
    | skip =>
      rw [selectLoop_skip _ _ _ _ _ _ _ _ _ _ _ _ hp] at h
      obtain ⟨pre, post, e1, e2, e3, e4, e5, e6⟩ :=
        selectLoop_greedy minimumSum rest utxos sum out hlt h
      refine ⟨utxo :: pre, post, by rw [e1]; rfl, ?_, ?_, ?_, ?_, ?_⟩
      · rw [keptPairs_skip _ _ _ _ _ _ _ _ hp]; exact e2
      · rw [keptPairs_skip _ _ _ _ _ _ _ _ hp]; exact e3
      · rw [keptPairs_skip _ _ _ _ _ _ _ _ hp]; exact e4
      · rw [keptPairs_skip _ _ _ _ _ _ _ _ hp]; exact e5
      · intro post'
        rw [List.cons_append, selectLoop_skip _ _ _ _ _ _ _ _ _ _ _ _ hp]
        exact e6 post'
    | abort msg =>
      rw [selectLoop_abort _ _ _ _ _ _ _ _ _ _ _ _ _ hp] at h
      cases h
    | keep ethUTXO =>
      rw [selectLoop_keep_greedy _ _ _ _ _ _ _ _ _ _ _ _ hp] at h
      by_cases hm : minimumSum ≤ sum + (if ethUTXO.Safe then utxo.Satoshis else 0)
      · rw [if_pos hm] at h
        have ho : out = utxos ++ [ethUTXO] := by
          injection h with h1 _
          injection h1 with h2
          exact h2.symm
        refine ⟨[utxo], rest, rfl, ?_, ?_, ?_, ?_, ?_⟩
        · rw [keptPairs_keep _ _ _ _ _ _ _ _ _ hp]; simpa [keptPairs] using ho
        · rw [keptPairs_keep _ _ _ _ _ _ _ _ _ hp]; simp
        · rw [keptPairs_keep _ _ _ _ _ _ _ _ _ hp]; simpa [keptPairs, safeSum] using hm
        · intro n hn
          rw [keptPairs_keep _ _ _ _ _ _ _ _ _ hp] at hn ⊢
          have hn0 : n = 0 := by simpa [keptPairs] using hn
          subst hn0
          simpa [safeSum] using hlt
        · intro post'
          rw [List.singleton_append, selectLoop_keep_greedy _ _ _ _ _ _ _ _ _ _ _ _ hp,
            if_pos hm, ho]
      · rw [if_neg hm] at h
        obtain ⟨pre, post, e1, e2, e3, e4, e5, e6⟩ :=
          selectLoop_greedy minimumSum rest (utxos ++ [ethUTXO])
            (sum + (if ethUTXO.Safe then utxo.Satoshis else 0)) out (not_le.mp hm) h
        refine ⟨utxo :: pre, post, by rw [e1]; rfl, ?_, ?_, ?_, ?_, ?_⟩
        · rw [keptPairs_keep _ _ _ _ _ _ _ _ _ hp, e2]; simp
        · rw [keptPairs_keep _ _ _ _ _ _ _ _ _ hp]; simp
        · rw [keptPairs_keep _ _ _ _ _ _ _ _ _ hp]
          simpa [safeSum, add_assoc] using e4
        · intro n hn
          rw [keptPairs_keep _ _ _ _ _ _ _ _ _ hp] at hn ⊢
          cases n with
          | zero => simpa [safeSum] using hlt
          | succ k =>
            have hk := e5 k (by simpa using hn)
            simpa [safeSum, add_assoc] using hk
        · intro post'
          rw [List.cons_append, selectLoop_keep_greedy _ _ _ _ _ _ _ _ _ _ _ _ hp, if_neg hm]
          exact e6 post'

end Loop

/-! ## UTXO selection: the request -/

/-- When the node answers, `request` is the selection loop over its answers. -/
theorem request_of_answers (env : Env) (q : Qtum) (params : GetUTXOsRequest)
    (resp : List UTXO) (blockCount : Int) (mempoolUxtoHashes : List String)
    (hA : NodeAnswers env q params resp blockCount mempoolUxtoHashes) :
    request env q params =
      selectLoop env blockCount q.GetMatureBlockHeight mempoolUxtoHashes
        (allUtxoTypesOf params.Types) params.Types
        (decide (env.convertFromQtumToSatoshis params.MinSumAmount = 0))
        (env.convertFromQtumToSatoshis params.MinSumAmount) resp [] 0 := by
  obtain ⟨address, rawMempool, h1, h2, h3, h4, h5⟩ := hA
  simp only [request, h1, h2, h3, h4, h5]

theorem mempoolInputs_congr (q q' : Qtum) (h : q'.GetRawTransaction = q.GetRawTransaction) :
    ∀ l : List String, mempoolInputs q' l = mempoolInputs q l
  | [] => rfl
  | x :: l => by
    simp only [mempoolInputs, h, mempoolInputs_congr q q' h l]

/-- The answers of a node whose UTXO list is replaced by another one. -/
theorem NodeAnswers.withUTXOs {env : Env} {q : Qtum} {params : GetUTXOsRequest}
    {resp : List UTXO} {blockCount : Int} {mempoolUxtoHashes : List String}
    (hA : NodeAnswers env q params resp blockCount mempoolUxtoHashes) (resp' : List UTXO) :
    NodeAnswers env { q with GetAddressUTXOs := fun _ => .ok resp' } params resp' blockCount
      mempoolUxtoHashes := by
  obtain ⟨address, rawMempool, h1, h2, h3, h4, h5⟩ := hA
  refine ⟨address, rawMempool, h1, rfl, h3, h4, ?_⟩
  exact (mempoolInputs_congr q { q with GetAddressUTXOs := fun _ => .ok resp' } rfl
    rawMempool).trans h5

theorem keptPairs_append (env : Env) (blockCount matureBlockHeight : Int)
    (mempoolUxtoHashes : List String) (allUtxoTypes : Bool) (utxoTypes : List UTXOScriptType)
    (post : List UTXO) :
    ∀ pre : List UTXO,
      keptPairs env blockCount matureBlockHeight mempoolUxtoHashes allUtxoTypes utxoTypes
          (pre ++ post)
        = keptPairs env blockCount matureBlockHeight mempoolUxtoHashes allUtxoTypes utxoTypes pre
          ++ keptPairs env blockCount matureBlockHeight mempoolUxtoHashes allUtxoTypes
            utxoTypes post
  | [] => rfl
  | utxo :: pre => by
    have ih := keptPairs_append env blockCount matureBlockHeight mempoolUxtoHashes allUtxoTypes
      utxoTypes post pre
    simp only [List.cons_append, keptPairs]
    split <;> simp [ih]

/-- C6 (greedy selection termination): when a request with a positive minimum
sum succeeds, the node's list splits into `pre ++ post` such that the returned
list is the kept entries of `pre`, in node order; it is not empty; its safe
values sum to at least the minimum; the safe values of every proper prefix of
it, and so of the list without its last entry, sum to less than the minimum;
and whatever stands in the place of `post`, the request returns the same list. -/
theorem request_greedy_selection (env : Env) (q : Qtum) (params : GetUTXOsRequest)
    (resp : List UTXO) (blockCount : Int) (mempoolUxtoHashes : List String)
    (out : List QtumUTXO)
    (hA : NodeAnswers env q params resp blockCount mempoolUxtoHashes)
    (hmin : 0 < env.convertFromQtumToSatoshis params.MinSumAmount)
    (hs : request env q params = .returned (some out) none) :
    ∃ pre post, resp = pre ++ post
      ∧ out = (keptPairs env blockCount q.GetMatureBlockHeight mempoolUxtoHashes
          (allUtxoTypesOf params.Types) params.Types pre).map Prod.snd
      ∧ keptPairs env blockCount q.GetMatureBlockHeight mempoolUxtoHashes
          (allUtxoTypesOf params.Types) params.Types resp
        = keptPairs env blockCount q.GetMatureBlockHeight mempoolUxtoHashes
            (allUtxoTypesOf params.Types) params.Types pre
          ++ keptPairs env blockCount q.GetMatureBlockHeight mempoolUxtoHashes
            (allUtxoTypesOf params.Types) params.Types post
      ∧ out ≠ []
      ∧ env.convertFromQtumToSatoshis params.MinSumAmount
          ≤ safeSum (keptPairs env blockCount q.GetMatureBlockHeight mempoolUxtoHashes
            (allUtxoTypesOf params.Types) params.Types pre)
      ∧ (∀ n, n < (keptPairs env blockCount q.GetMatureBlockHeight mempoolUxtoHashes
            (allUtxoTypesOf params.Types) params.Types pre).length →
          safeSum ((keptPairs env blockCount q.GetMatureBlockHeight mempoolUxtoHashes
            (allUtxoTypesOf params.Types) params.Types pre).take n)
            < env.convertFromQtumToSatoshis params.MinSumAmount)
      ∧ safeSum (keptPairs env blockCount q.GetMatureBlockHeight mempoolUxtoHashes
            (allUtxoTypesOf params.Types) params.Types pre).dropLast
          < env.convertFromQtumToSatoshis params.MinSumAmount
      ∧ ∀ post', request env { q with GetAddressUTXOs := fun _ => .ok (pre ++ post') } params
          = .returned (some out) none := by
  have hq : decide (env.convertFromQtumToSatoshis params.MinSumAmount = 0) = false :=
    decide_eq_false (ne_of_gt hmin)
  rw [request_of_answers env q params resp blockCount mempoolUxtoHashes hA, hq] at hs
  obtain ⟨pre, post, e1, e2, e3, e4, e5, e6⟩ :=
    selectLoop_greedy env blockCount q.GetMatureBlockHeight mempoolUxtoHashes
      (allUtxoTypesOf params.Types) params.Types _ resp [] 0 out hmin hs
  refine ⟨pre, post, e1, by simpa using e2, ?_, ?_, by simpa using e4, ?_, ?_, ?_⟩
  · rw [e1, keptPairs_append]
  · rw [e2]
    simpa using e3
  · intro n hn
    simpa using e5 n hn
  · rw [List.dropLast_eq_take]
    have hpos := List.length_pos.mpr e3
    simpa using e5 _ (Nat.sub_lt hpos Nat.one_pos)
  · intro post'
    rw [request_of_answers env _ params (pre ++ post') blockCount mempoolUxtoHashes
      (hA.withUTXOs (pre ++ post')), hq]
    exact e6 post'

theorem sampleAnswers (height : Int) (utxos : List UTXO) (satoshis : ℚ) :
    NodeAnswers sampleEnv (walletNode height utxos) (sampleParams satoshis) utxos height
      ["spent"] :=
  ⟨"aa", ["m1"], rfl, rfl, rfl, rfl, rfl⟩

/-- C6, witness: with safe values 3, 5 and 2 and the minimum sum 7, the request
returns the first two entries only, and the split of the node's list the
theorem gives exists. -/
theorem request_greedy_selection_witness :
    request sampleEnv (walletNode 105 sampleUTXOs) (sampleParams 7)
        = .returned (some [sampleEntry "a", sampleEntry "b"]) none
      ∧ ∃ pre post, sampleUTXOs = pre ++ post
        ∧ [sampleEntry "a", sampleEntry "b"]
          = (keptPairs sampleEnv 105 500 ["spent"] true [] pre).map Prod.snd
        ∧ (7 : ℚ) ≤ safeSum (keptPairs sampleEnv 105 500 ["spent"] true [] pre)
        ∧ safeSum (keptPairs sampleEnv 105 500 ["spent"] true [] pre).dropLast < 7 := by
  have hs : request sampleEnv (walletNode 105 sampleUTXOs) (sampleParams 7)
      = .returned (some [sampleEntry "a", sampleEntry "b"]) none := by decide!
  have hm : sampleEnv.convertFromQtumToSatoshis (sampleParams 7).MinSumAmount = 7 := by
    decide!
  obtain ⟨pre, post, e1, e2, _, _, e5, _, e7, _⟩ :=
    request_greedy_selection sampleEnv (walletNode 105 sampleUTXOs) (sampleParams 7)
      sampleUTXOs 105 ["spent"] [sampleEntry "a", sampleEntry "b"]
      (sampleAnswers 105 sampleUTXOs 7) (by rw [hm]; norm_num) hs
  rw [hm] at e5 e7
  exact ⟨hs, pre, post, e1, e2, e5, e7⟩

/-! ## UTXO selection: one entry -/

theorem Contains_iff_mem (name : String) :
    ∀ sl : List String, Contains sl name = true ↔ name ∈ sl
  | [] => by simp [Contains]
  | v :: sl => by
    by_cases h : v = name
    · simp [Contains, h]
    · have h' : ¬ name = v := fun e => h e.symm
      simp [Contains, h, h', Contains_iff_mem name sl]

/-- The fields of an entry the loop body keeps. -/
theorem processUTXO_keep (env : Env) (blockCount matureBlockHeight : Int)
    (mempoolUxtoHashes : List String) (allUtxoTypes : Bool) (utxoTypes : List UTXOScriptType)
    (utxo : UTXO) (ethUTXO : QtumUTXO)
    (h : processUTXO env blockCount matureBlockHeight mempoolUxtoHashes allUtxoTypes utxoTypes
      utxo = .keep ethUTXO) :
    ethUTXO.TXID = utxo.TXID ∧ ethUTXO.Vout = utxo.OutputIndex
      ∧ ethUTXO.Height = wrapUint64 (bigInt64 utxo.Height)
      ∧ ethUTXO.Confirmations = wrapInt64 (bigInt64 blockCount - bigInt64 utxo.Height)
      ∧ 0 ≤ ethUTXO.Confirmations
      ∧ ethUTXO.Spendable = true
      ∧ ethUTXO.Safe = (!(Contains mempoolUxtoHashes utxo.TXID)
          && !((utxo.IsStake || utxo.IsBase) && notMatured blockCount matureBlockHeight utxo)) := by
  unfold processUTXO at h
  dsimp only at h
  by_cases c1 : Contains mempoolUxtoHashes utxo.TXID = true <;>
    by_cases c2 : ((utxo.IsStake || utxo.IsBase)
      && notMatured blockCount matureBlockHeight utxo) = true <;>
    simp only [c1, c2, if_true, if_false] at h <;>
    split at h <;> try cases h
  all_goals split at h <;> try cases h
  all_goals split at h <;> try cases h
  all_goals
    rename_i hc
    refine ⟨rfl, rfl, rfl, rfl, not_lt.mp hc, rfl, ?_⟩
    simp [c1, c2]

/-- An entry that is not above a chain head below `2^63` does not abort the
loop. -/
theorem processUTXO_ne_abort (env : Env) (blockCount matureBlockHeight : Int)
    (mempoolUxtoHashes : List String) (allUtxoTypes : Bool) (utxoTypes : List UTXOScriptType)
    (utxo : UTXO) (hbc : blockCount < 2 ^ 63) (h0 : 0 ≤ utxo.Height)
    (h1 : utxo.Height ≤ blockCount) (msg : String) :
    processUTXO env blockCount matureBlockHeight mempoolUxtoHashes allUtxoTypes utxoTypes utxo
      ≠ .abort msg := by
  have eb : bigInt64 blockCount = blockCount := bigInt64_of_range (by omega) hbc
  have eh : bigInt64 utxo.Height = utxo.Height := bigInt64_of_range h0 (by omega)
  have ec : wrapInt64 (blockCount - utxo.Height) = blockCount - utxo.Height :=
    wrapInt64_of_range (by omega) (by omega)
  intro h
  unfold processUTXO at h
  dsimp only at h
  by_cases c1 : Contains mempoolUxtoHashes utxo.TXID = true <;>
    by_cases c2 : ((utxo.IsStake || utxo.IsBase)
      && notMatured blockCount matureBlockHeight utxo) = true <;>
    simp only [c1, c2, if_true, if_false] at h <;>
    split at h <;> try cases h
  all_goals split at h <;> try cases h
  all_goals split at h <;> try cases h
  all_goals
    rename_i hc
    rw [eb, eh, ec] at hc
    omega

/-! ## UTXO selection: what the loop returns -/

section Returns

variable (env : Env) (blockCount matureBlockHeight : Int) (mempoolUxtoHashes : List String)
  (allUtxoTypes : Bool) (utxoTypes : List UTXOScriptType)

/-- In either mode, every entry of a returned list was accumulated before or
is what the loop body makes of one of the remaining node entries. -/
theorem selectLoop_mem (queryingAll : Bool) (minimumSum : ℚ) :
    ∀ (l : List UTXO) (utxos : List QtumUTXO) (sum : ℚ) (out : List QtumUTXO),
      selectLoop env blockCount matureBlockHeight mempoolUxtoHashes allUtxoTypes utxoTypes
        queryingAll minimumSum l utxos sum = .returned (some out) none →
      ∀ e ∈ out, e ∈ utxos ∨ ∃ u ∈ l,
        processUTXO env blockCount matureBlockHeight mempoolUxtoHashes allUtxoTypes utxoTypes u
          = .keep e
  | [], utxos, sum, out, h, e, he => by
    simp only [selectLoop] at h
    split at h
    · injection h with h1 _
      injection h1 with h2
      exact Or.inl (h2 ▸ he)
    · cases h
  | utxo :: rest, utxos, sum, out, h, e, he => by
    cases hp : processUTXO env blockCount matureBlockHeight mempoolUxtoHashes allUtxoTypes
        utxoTypes utxo with
    | skip =>
      rw [selectLoop_skip _ _ _ _ _ _ _ _ _ _ _ _ hp] at h
      rcases selectLoop_mem queryingAll minimumSum rest utxos sum out h e he with h1 | ⟨u, hu, hk⟩
      · exact Or.inl h1
      · exact Or.inr ⟨u, List.mem_cons_of_mem _ hu, hk⟩
    | abort msg =>
      rw [selectLoop_abort _ _ _ _ _ _ _ _ _ _ _ _ _ hp] at h
      cases h
    | keep ethUTXO =>
      rw [selectLoop_keep _ _ _ _ _ _ _ _ _ _ _ _ _ hp] at h
      generalize (if ethUTXO.Safe then sum + utxo.Satoshis else sum) = sum' at h
      by_cases hc : (!queryingAll && decide (minimumSum ≤ sum')) = true
      · rw [if_pos hc] at h
        injection h with h1 _
        injection h1 with h2
        subst h2
        rcases List.mem_append.mp he with h1 | h1
        · exact Or.inl h1
        · rw [List.mem_singleton] at h1
          exact Or.inr ⟨utxo, List.mem_cons_self _ _, h1 ▸ hp⟩
      · rw [if_neg hc] at h
        rcases selectLoop_mem queryingAll minimumSum rest _ _ out h e he with h1 | ⟨u, hu, hk⟩
        · rcases List.mem_append.mp h1 with h2 | h2
          · exact Or.inl h2
          · rw [List.mem_singleton] at h2
            exact Or.inr ⟨utxo, List.mem_cons_self _ _, h2 ▸ hp⟩
        · exact Or.inr ⟨u, List.mem_cons_of_mem _ hu, hk⟩

/-- The safe values of kept entries of non-negative value sum to a
non-negative number. -/
theorem safeSum_keptPairs_nonneg :
    ∀ l : List UTXO, (∀ u ∈ l, 0 ≤ u.Satoshis) →
      0 ≤ safeSum (keptPairs env blockCount matureBlockHeight mempoolUxtoHashes allUtxoTypes
        utxoTypes l)
  | [], _ => by simp [keptPairs, safeSum]
  | utxo :: rest, hv => by
    have ih := safeSum_keptPairs_nonneg rest (fun u hu => hv u (List.mem_cons_of_mem _ hu))
    have h0 := hv utxo (List.mem_cons_self _ _)
    simp only [keptPairs]
    split
    · simp only [safeSum]
      split
      · exact add_nonneg h0 ih
      · simpa using ih
    · exact ih

/-- Greedy mode fails when the safe values of the kept entries, all of
non-negative value, cannot lift the sum to the minimum. -/
theorem selectLoop_greedy_fails (minimumSum : ℚ) :
    ∀ (l : List UTXO) (utxos : List QtumUTXO) (sum : ℚ),
      (∀ u ∈ l, 0 ≤ u.Satoshis) →
      (∀ u ∈ l, ∀ msg, processUTXO env blockCount matureBlockHeight mempoolUxtoHashes
        allUtxoTypes utxoTypes u ≠ .abort msg) →
      sum + safeSum (keptPairs env blockCount matureBlockHeight mempoolUxtoHashes allUtxoTypes
        utxoTypes l) < minimumSum →
      selectLoop env blockCount matureBlockHeight mempoolUxtoHashes allUtxoTypes utxoTypes
        false minimumSum l utxos sum = .returned none (some (NewCallbackError minimumSumMessage))
  | [], utxos, sum, _, _, _ => by simp [selectLoop]
  | utxo :: rest, utxos, sum, hv, hna, hlt => by
    have hv' : ∀ u ∈ rest, 0 ≤ u.Satoshis := fun u hu => hv u (List.mem_cons_of_mem _ hu)
    have hna' : ∀ u ∈ rest, ∀ msg, processUTXO env blockCount matureBlockHeight
        mempoolUxtoHashes allUtxoTypes utxoTypes u ≠ .abort msg :=
      fun u hu => hna u (List.mem_cons_of_mem _ hu)
    cases hp : processUTXO env blockCount matureBlockHeight mempoolUxtoHashes allUtxoTypes
        utxoTypes utxo with
    | skip =>
      rw [selectLoop_skip _ _ _ _ _ _ _ _ _ _ _ _ hp]
      rw [keptPairs_skip _ _ _ _ _ _ _ _ hp] at hlt
      exact selectLoop_greedy_fails minimumSum rest utxos sum hv' hna' hlt
    | abort msg => exact absurd hp (hna utxo (List.mem_cons_self _ _) msg)
    | keep ethUTXO =>
      rw [keptPairs_keep _ _ _ _ _ _ _ _ _ hp] at hlt
      simp only [safeSum] at hlt
      have hrest := safeSum_keptPairs_nonneg env blockCount matureBlockHeight mempoolUxtoHashes
        allUtxoTypes utxoTypes rest hv'
      have hm : ¬ minimumSum ≤ sum + (if ethUTXO.Safe then utxo.Satoshis else 0) := by
        intro hle
        linarith
      rw [selectLoop_keep_greedy _ _ _ _ _ _ _ _ _ _ _ _ hp, if_neg hm]
      exact selectLoop_greedy_fails minimumSum rest _ _ hv' hna' (by linarith)

/-- Greedy mode succeeds when some entry is kept and the safe values of the
kept entries sum to at least the minimum. -/
theorem selectLoop_greedy_succeeds (minimumSum : ℚ) :
    ∀ (l : List UTXO) (utxos : List QtumUTXO) (sum : ℚ),
      (∀ u ∈ l, ∀ msg, processUTXO env blockCount matureBlockHeight mempoolUxtoHashes
        allUtxoTypes utxoTypes u ≠ .abort msg) →
      keptPairs env blockCount matureBlockHeight mempoolUxtoHashes allUtxoTypes utxoTypes l
        ≠ [] →
      minimumSum ≤ sum + safeSum (keptPairs env blockCount matureBlockHeight mempoolUxtoHashes
        allUtxoTypes utxoTypes l) →
      ∃ out, selectLoop env blockCount matureBlockHeight mempoolUxtoHashes allUtxoTypes
        utxoTypes false minimumSum l utxos sum = .returned (some out) none
  | [], utxos, sum, _, hne, _ => by simp [keptPairs] at hne
  | utxo :: rest, utxos, sum, hna, hne, hle => by
    have hna' : ∀ u ∈ rest, ∀ msg, processUTXO env blockCount matureBlockHeight
        mempoolUxtoHashes allUtxoTypes utxoTypes u ≠ .abort msg :=
      fun u hu => hna u (List.mem_cons_of_mem _ hu)
    cases hp : processUTXO env blockCount matureBlockHeight mempoolUxtoHashes allUtxoTypes
        utxoTypes utxo with
    | skip =>
      rw [selectLoop_skip _ _ _ _ _ _ _ _ _ _ _ _ hp]
      rw [keptPairs_skip _ _ _ _ _ _ _ _ hp] at hne hle
      exact selectLoop_greedy_succeeds minimumSum rest utxos sum hna' hne hle
    | abort msg => exact absurd hp (hna utxo (List.mem_cons_self _ _) msg)
    | keep ethUTXO =>
      rw [keptPairs_keep _ _ _ _ _ _ _ _ _ hp] at hle
      simp only [safeSum] at hle
      rw [selectLoop_keep_greedy _ _ _ _ _ _ _ _ _ _ _ _ hp]
      by_cases hm : minimumSum ≤ sum + (if ethUTXO.Safe then utxo.Satoshis else 0)
      · exact ⟨_, if_pos hm⟩
      · rw [if_neg hm]
        have hne' : keptPairs env blockCount matureBlockHeight mempoolUxtoHashes allUtxoTypes
            utxoTypes rest ≠ [] := by
          intro he
          rw [he] at hle
          simp only [safeSum, add_zero] at hle
          exact hm hle
        exact selectLoop_greedy_succeeds minimumSum rest _ _ hna' hne' (by linarith)

end Returns

/-- The inputs collected from the mempool: the `ID`s of the inputs of the
mempool transactions, every one of which the node could look up. -/
theorem mem_mempoolInputs (q : Qtum) (x : String) :
    ∀ (rawMempool ids : List String), mempoolInputs q rawMempool = .ok ids →
      (x ∈ ids ↔ ∃ mempoolHash ∈ rawMempool, ∃ qtumTx,
        q.GetRawTransaction mempoolHash false = .ok qtumTx ∧ ∃ vin ∈ qtumTx.Vins, vin.ID = x)
  | [], ids, h => by
    simp only [mempoolInputs] at h
    injection h with h
    subst h
    simp
  | mempoolHash :: rest, ids, h => by
    simp only [mempoolInputs] at h
    split at h
    · cases h
    · rename_i qtumTx hq
      split at h
      · cases h
      · rename_i ids' hr
        injection h with h
        subst h
        have ih := mem_mempoolInputs q x rest ids' hr
        simp only [List.mem_append, List.mem_map, ih, List.mem_cons, exists_eq_or_imp, hq]
        constructor
        · rintro (⟨vin, hv, rfl⟩ | h2)
          · exact Or.inl ⟨qtumTx, rfl, vin, hv, rfl⟩
          · exact Or.inr h2
        · rintro (⟨tx, htx, vin, hv, rfl⟩ | h2)
          · injection htx with htx
            subst htx
            exact Or.inl ⟨vin, hv, rfl⟩
          · exact Or.inr h2

/-! ## UTXO selection: the claims on the result -/

/-- C7, as stated, fails: with the minimum sum `-1` and an empty wallet the
safe kept entries sum to `0`, which is at least the minimum, and the minimum
is not zero, yet the request fails with the minimum-sum error. -/
theorem request_negative_minimum_fails :
    sampleEnv.convertFromQtumToSatoshis (sampleParams (-1)).MinSumAmount ≠ 0
      ∧ sampleEnv.convertFromQtumToSatoshis (sampleParams (-1)).MinSumAmount
        ≤ safeSum (keptPairs sampleEnv 105 500 ["spent"] true [] [])
      ∧ request sampleEnv (walletNode 105 []) (sampleParams (-1))
        = .returned none (some (NewCallbackError minimumSumMessage)) := by
  decide!

/-- C7, amended (greedy selection failure): for a request with a non-zero
minimum sum, entries of non-negative value and none above a chain head below
`2^63`: if the minimum exceeds the sum of the safe values of the kept entries,
the result is the `CallbackError` "required minimum amount is greater than
total amount of UTXOs" with a nil list; and if the minimum is positive and
the safe kept entries sum to at least the minimum, the request succeeds. -/
theorem request_greedy_failure (env : Env) (q : Qtum) (params : GetUTXOsRequest)
    (resp : List UTXO) (blockCount : Int) (mempoolUxtoHashes : List String)
    (hA : NodeAnswers env q params resp blockCount mempoolUxtoHashes)
    (hmin : env.convertFromQtumToSatoshis params.MinSumAmount ≠ 0)
    (hval : ∀ u ∈ resp, 0 ≤ u.Satoshis)
    (hbc : blockCount < 2 ^ 63)
    (hh : ∀ u ∈ resp, 0 ≤ u.Height ∧ u.Height ≤ blockCount) :
    (safeSum (keptPairs env blockCount q.GetMatureBlockHeight mempoolUxtoHashes
          (allUtxoTypesOf params.Types) params.Types resp)
        < env.convertFromQtumToSatoshis params.MinSumAmount →
      request env q params = .returned none (some (NewCallbackError minimumSumMessage)))
    ∧ (0 < env.convertFromQtumToSatoshis params.MinSumAmount →
      env.convertFromQtumToSatoshis params.MinSumAmount
        ≤ safeSum (keptPairs env blockCount q.GetMatureBlockHeight mempoolUxtoHashes
          (allUtxoTypesOf params.Types) params.Types resp) →
      ∃ out, request env q params = .returned (some out) none) := by
  have hq : decide (env.convertFromQtumToSatoshis params.MinSumAmount = 0) = false :=
    decide_eq_false hmin
  have hna : ∀ u ∈ resp, ∀ msg, processUTXO env blockCount q.GetMatureBlockHeight
      mempoolUxtoHashes (allUtxoTypesOf params.Types) params.Types u ≠ .abort msg :=
    fun u hu msg => processUTXO_ne_abort env blockCount _ _ _ _ u hbc (hh u hu).1 (hh u hu).2 msg
  rw [request_of_answers env q params resp blockCount mempoolUxtoHashes hA, hq]
  constructor
  · intro hlt
    exact selectLoop_greedy_fails env blockCount _ _ _ _ _ resp [] 0 hval hna (by simpa using hlt)
  · intro hpos hle
    have hne : keptPairs env blockCount q.GetMatureBlockHeight mempoolUxtoHashes
        (allUtxoTypesOf params.Types) params.Types resp ≠ [] := by
      intro he
      rw [he] at hle
      simp only [safeSum] at hle
      exact absurd hle (not_le.mpr hpos)
    exact selectLoop_greedy_succeeds env blockCount _ _ _ _ _ resp [] 0 hna hne
      (by simpa using hle)

theorem sampleUTXOs_wellformed :
    (∀ u ∈ sampleUTXOs, 0 ≤ u.Satoshis)
      ∧ ∀ u ∈ sampleUTXOs, (0 : Int) ≤ u.Height ∧ u.Height ≤ 105 := by
  constructor <;>
  · intro u hu
    simp only [sampleUTXOs, List.mem_cons, List.mem_singleton, List.not_mem_nil, or_false] at hu
    rcases hu with rfl | rfl | rfl <;> norm_num [sampleUTXO]

/-- C7, witness: the sample wallet holds 3 + 5 + 2 safe satoshis; a request
for 11 fails with the minimum-sum error, a request for 7 succeeds. -/
theorem request_greedy_failure_witness :
    request sampleEnv (walletNode 105 sampleUTXOs) (sampleParams 11)
        = .returned none (some (NewCallbackError minimumSumMessage))
      ∧ ∃ out, request sampleEnv (walletNode 105 sampleUTXOs) (sampleParams 7)
        = .returned (some out) none :=
  ⟨(request_greedy_failure sampleEnv (walletNode 105 sampleUTXOs) (sampleParams 11)
      sampleUTXOs 105 ["spent"] (sampleAnswers 105 sampleUTXOs 11) (by decide!)
      sampleUTXOs_wellformed.1 (by norm_num) sampleUTXOs_wellformed.2).1 (by decide!),
    (request_greedy_failure sampleEnv (walletNode 105 sampleUTXOs) (sampleParams 7)
      sampleUTXOs 105 ["spent"] (sampleAnswers 105 sampleUTXOs 7) (by decide!)
      sampleUTXOs_wellformed.1 (by norm_num) sampleUTXOs_wellformed.2).2
      (by decide!) (by decide!)⟩

/-- C8 (safe flag): the in-flight set is the set of the `ID`s of the inputs of
the mempool transactions, and every entry of a returned list comes from a
node entry and has `Safe = false` exactly when the txid of that entry is in
the in-flight set or the entry is a coinbase or stake output whose maturity
threshold the chain height has not passed; so an entry in the in-flight set
has `Safe = false` whatever its type and maturity. -/
theorem request_safe_flag (env : Env) (q : Qtum) (params : GetUTXOsRequest)
    (resp : List UTXO) (blockCount : Int) (mempoolUxtoHashes : List String)
    (out : List QtumUTXO)
    (hA : NodeAnswers env q params resp blockCount mempoolUxtoHashes)
    (hs : request env q params = .returned (some out) none) :
    (∀ x, x ∈ mempoolUxtoHashes ↔ ∃ rawMempool, q.GetRawMempool = .ok rawMempool
        ∧ ∃ mempoolHash ∈ rawMempool, ∃ qtumTx,
          q.GetRawTransaction mempoolHash false = .ok qtumTx
            ∧ ∃ vin ∈ qtumTx.Vins, vin.ID = x)
      ∧ ∀ e ∈ out, ∃ u ∈ resp,
        processUTXO env blockCount q.GetMatureBlockHeight mempoolUxtoHashes
            (allUtxoTypesOf params.Types) params.Types u = .keep e
          ∧ e.TXID = u.TXID
          ∧ (e.Safe = false ↔
              (u.TXID ∈ mempoolUxtoHashes
                ∨ ((u.IsStake = true ∨ u.IsBase = true)
                  ∧ blockCount ≤ bigInt64 u.Height + q.GetMatureBlockHeight)))
          ∧ (e.TXID ∈ mempoolUxtoHashes → e.Safe = false) := by
  constructor
  · intro x
    obtain ⟨address, rawMempool, _, _, _, h4, h5⟩ := hA
    rw [mem_mempoolInputs q x rawMempool mempoolUxtoHashes h5]
    constructor
    · intro h
      exact ⟨rawMempool, h4, h⟩
    · rintro ⟨raw', h4', h⟩
      rw [h4] at h4'
      injection h4' with h4'
      exact h4' ▸ h
  · intro e he
    rw [request_of_answers env q params resp blockCount mempoolUxtoHashes hA] at hs
    rcases selectLoop_mem env blockCount _ _ _ _ _ _ resp [] 0 out hs e he with h1 | ⟨u, hu, hk⟩
    · cases h1
    · obtain ⟨e1, _, _, _, _, _, e7⟩ := processUTXO_keep env blockCount _ _ _ _ u e hk
      have hiff : e.Safe = false ↔
          (u.TXID ∈ mempoolUxtoHashes
            ∨ ((u.IsStake = true ∨ u.IsBase = true)
              ∧ blockCount ≤ bigInt64 u.Height + q.GetMatureBlockHeight)) := by
        rw [e7, ← Contains_iff_mem]
        by_cases c1 : Contains mempoolUxtoHashes u.TXID = true <;>
          by_cases c2 : u.IsStake = true <;> by_cases c3 : u.IsBase = true <;>
          simp [c1, c2, c3, notMatured]
      refine ⟨u, hu, hk, e1, hiff, ?_⟩
      intro hm
      exact hiff.mpr (Or.inl (e1 ▸ hm))

/-- C8, witness: of two wallet entries, the one whose txid is spent by the
mempool transaction is returned with `Safe = false`, the other one with
`Safe = true`. -/
theorem request_safe_flag_witness :
    request sampleEnv (walletNode 105 [sampleUTXO "spent" 3 100, sampleUTXO "a" 5 100])
        (sampleParams 0)
        = .returned (some [{ sampleEntry "spent" with Safe := false }, sampleEntry "a"]) none
      ∧ ∀ e ∈ [{ sampleEntry "spent" with Safe := false }, sampleEntry "a"],
        e.TXID ∈ ["spent"] → e.Safe = false := by
  have hs : request sampleEnv
      (walletNode 105 [sampleUTXO "spent" 3 100, sampleUTXO "a" 5 100]) (sampleParams 0)
      = .returned (some [{ sampleEntry "spent" with Safe := false }, sampleEntry "a"]) none := by
    decide!
  refine ⟨hs, fun e he => ?_⟩
  obtain ⟨_, _, _, _, _, h⟩ := (request_safe_flag sampleEnv
    (walletNode 105 [sampleUTXO "spent" 3 100, sampleUTXO "a" 5 100]) (sampleParams 0)
    [sampleUTXO "spent" 3 100, sampleUTXO "a" 5 100] 105 ["spent"] _
    (sampleAnswers 105 _ 0) hs).2 e he
  exact h

theorem wrapUint64_of_range {z : Int} (h0 : 0 ≤ z) (h1 : z < 2 ^ 64) :
    ((wrapUint64 z : Nat) : Int) = z := by
  unfold wrapUint64
  rw [Int.emod_eq_of_lt h0 h1]
  exact Int.toNat_of_nonneg h0

/-- C10 (confirmations invariant): after a successful selection, with the
chain height and the heights of the node's entries in `[0, 2^63)`, every
returned entry comes from a node entry of its height, and its confirmations
are the chain height minus that height, a number that is not negative. -/
theorem request_confirmations (env : Env) (q : Qtum) (params : GetUTXOsRequest)
    (resp : List UTXO) (blockCount : Int) (mempoolUxtoHashes : List String)
    (out : List QtumUTXO)
    (hA : NodeAnswers env q params resp blockCount mempoolUxtoHashes)
    (hs : request env q params = .returned (some out) none)
    (hbc0 : 0 ≤ blockCount) (hbc1 : blockCount < 2 ^ 63)
    (hh : ∀ u ∈ resp, 0 ≤ u.Height ∧ u.Height < 2 ^ 63) :
    ∀ e ∈ out, 0 ≤ e.Confirmations
      ∧ e.Confirmations = blockCount - (e.Height : Int)
      ∧ ∃ u ∈ resp,
        processUTXO env blockCount q.GetMatureBlockHeight mempoolUxtoHashes
            (allUtxoTypesOf params.Types) params.Types u = .keep e
          ∧ (e.Height : Int) = u.Height := by
  intro e he
  rw [request_of_answers env q params resp blockCount mempoolUxtoHashes hA] at hs
  rcases selectLoop_mem env blockCount _ _ _ _ _ _ resp [] 0 out hs e he with h1 | ⟨u, hu, hk⟩
  · cases h1
  · obtain ⟨_, _, e3, e4, e5, _, _⟩ := processUTXO_keep env blockCount _ _ _ _ u e hk
    have eb : bigInt64 blockCount = blockCount := bigInt64_of_range hbc0 hbc1
    have eh : bigInt64 u.Height = u.Height := bigInt64_of_range (hh u hu).1 (hh u hu).2
    have hH : (e.Height : Int) = u.Height := by
      rw [e3, eh]
      exact wrapUint64_of_range (hh u hu).1 (by have := (hh u hu).2; omega)
    have hC : e.Confirmations = blockCount - u.Height := by
      rw [e4, eb, eh]
      exact wrapInt64_of_range (by have := (hh u hu).2; omega) (by have := (hh u hu).1; omega)
    exact ⟨e5, by rw [hC, hH], u, hu, hk, hH⟩

/-- C10, witness: entries at height 100 selected at chain height 105 have 5
confirmations. -/
theorem request_confirmations_witness :
    request sampleEnv (walletNode 105 sampleUTXOs) (sampleParams 7)
        = .returned (some [sampleEntry "a", sampleEntry "b"]) none
      ∧ ∀ e ∈ [sampleEntry "a", sampleEntry "b"],
        0 ≤ e.Confirmations ∧ e.Confirmations = 105 - (e.Height : Int) := by
  have hs : request sampleEnv (walletNode 105 sampleUTXOs) (sampleParams 7)
      = .returned (some [sampleEntry "a", sampleEntry "b"]) none := by decide!
  refine ⟨hs, fun e he => ?_⟩
  have h := request_confirmations sampleEnv (walletNode 105 sampleUTXOs) (sampleParams 7)
    sampleUTXOs 105 ["spent"] _ (sampleAnswers 105 sampleUTXOs 7) hs (by norm_num) (by norm_num)
    (fun u hu => ⟨(sampleUTXOs_wellformed.2 u hu).1,
      lt_of_le_of_lt (sampleUTXOs_wellformed.2 u hu).2 (by norm_num)⟩) e he
  exact ⟨h.1, h.2.1⟩

/-! ## UTXO selection: entries above the chain head -/

/-- An entry above the chain head is never kept: the loop body drops it or
aborts. -/
theorem processUTXO_above_head (env : Env) (blockCount matureBlockHeight : Int)
    (mempoolUxtoHashes : List String) (allUtxoTypes : Bool) (utxoTypes : List UTXOScriptType)
    (utxo : UTXO) (hbc : 0 ≤ blockCount) (h0 : blockCount < utxo.Height)
    (h1 : utxo.Height < 2 ^ 63)
    (hns : processUTXO env blockCount matureBlockHeight mempoolUxtoHashes allUtxoTypes
      utxoTypes utxo ≠ .skip) :
    ∃ msg, processUTXO env blockCount matureBlockHeight mempoolUxtoHashes allUtxoTypes
      utxoTypes utxo = .abort msg := by
  cases hp : processUTXO env blockCount matureBlockHeight mempoolUxtoHashes allUtxoTypes
      utxoTypes utxo with
  | skip => exact absurd hp hns
  | abort msg => exact ⟨msg, rfl⟩
  | keep e =>
    obtain ⟨_, _, _, e4, e5, _, _⟩ := processUTXO_keep env blockCount _ _ _ _ utxo e hp
    have eb : bigInt64 blockCount = blockCount := bigInt64_of_range hbc (by omega)
    have eh : bigInt64 utxo.Height = utxo.Height := bigInt64_of_range (by omega) h1
    rw [e4, eb, eh, wrapInt64_of_range (by omega) (by omega)] at e5
    omega

/-- The loop aborts when it reaches an entry on which its body aborts: in
query-all mode always, in greedy mode when the kept entries before that entry
do not lift the sum to the minimum. -/
theorem selectLoop_reaches_abort (env : Env) (blockCount matureBlockHeight : Int)
    (mempoolUxtoHashes : List String) (allUtxoTypes : Bool) (utxoTypes : List UTXOScriptType)
    (queryingAll : Bool) (minimumSum : ℚ) (utxo : UTXO) (post : List UTXO) (msg0 : String)
    (hab : processUTXO env blockCount matureBlockHeight mempoolUxtoHashes allUtxoTypes
      utxoTypes utxo = .abort msg0) :
    ∀ (pre : List UTXO) (utxos : List QtumUTXO) (sum : ℚ),
      (queryingAll = true ∨ ∀ n, 0 < n →
        n ≤ (keptPairs env blockCount matureBlockHeight mempoolUxtoHashes allUtxoTypes
          utxoTypes pre).length →
        sum + safeSum ((keptPairs env blockCount matureBlockHeight mempoolUxtoHashes
          allUtxoTypes utxoTypes pre).take n) < minimumSum) →
      ∃ msg, selectLoop env blockCount matureBlockHeight mempoolUxtoHashes allUtxoTypes
        utxoTypes queryingAll minimumSum (pre ++ utxo :: post) utxos sum = .panicked msg
  | [], utxos, sum, _ => ⟨msg0, by
      rw [List.nil_append, selectLoop_abort _ _ _ _ _ _ _ _ _ _ _ _ _ hab]⟩
  | v :: pre, utxos, sum, hcut => by
    cases hp : processUTXO env blockCount matureBlockHeight mempoolUxtoHashes allUtxoTypes
        utxoTypes v with
    | skip =>
      rw [List.cons_append, selectLoop_skip _ _ _ _ _ _ _ _ _ _ _ _ hp]
      rw [keptPairs_skip _ _ _ _ _ _ _ _ hp] at hcut
      exact selectLoop_reaches_abort env blockCount matureBlockHeight mempoolUxtoHashes
        allUtxoTypes utxoTypes queryingAll minimumSum utxo post msg0 hab pre utxos sum hcut
    | abort msg =>
      exact ⟨msg, by rw [List.cons_append, selectLoop_abort _ _ _ _ _ _ _ _ _ _ _ _ _ hp]⟩
    | keep e =>
      rw [keptPairs_keep _ _ _ _ _ _ _ _ _ hp] at hcut
      have es : (if e.Safe then sum + v.Satoshis else sum)
          = sum + (if e.Safe then v.Satoshis else 0) := by
        split <;> simp
      have hc : ¬ ((!queryingAll && decide (minimumSum
          ≤ (if e.Safe then sum + v.Satoshis else sum))) = true) := by
        rcases hcut with hq | hcut
        · simp [hq]
        · have h1 := hcut 1 Nat.one_pos (by simp)
          simp only [List.take_succ_cons, List.take_zero, safeSum, add_zero] at h1
          rw [es]
          simp [not_le.mpr h1]
      rw [List.cons_append, selectLoop_keep _ _ _ _ _ _ _ _ _ _ _ _ _ hp, if_neg hc]
      refine selectLoop_reaches_abort env blockCount matureBlockHeight mempoolUxtoHashes
        allUtxoTypes utxoTypes queryingAll minimumSum utxo post msg0 hab pre _ _ ?_
      rcases hcut with hq | hcut
      · exact Or.inl hq
      · refine Or.inr (fun n hn hle => ?_)
        have h := hcut (n + 1) (Nat.succ_pos n) (by simpa using hle)
        rw [es]
        simpa [safeSum, add_assoc] using h

/-- C11, as stated, fails: the wallet holds an entry at height 200 above the
chain head 105, but the request accepts pay-to-script-hash entries only, the
entry is dropped by the type filter before its confirmations are computed,
and the request returns an empty list without error. -/
theorem request_filtered_entry_above_head_returns :
    (∃ u ∈ [sampleUTXO "a" 3 200], (105 : Int) < u.Height)
      ∧ request sampleEnv (walletNode 105 [sampleUTXO "a" 3 200])
          (typedParams 0 [UTXOScriptType.script "P2SH"])
        = .returned (some []) none := by
  refine ⟨⟨_, List.mem_singleton_self _, by decide⟩, ?_⟩
  decide!

/-- C11, amended (fatal abort on an entry above the chain head): when the
node's list contains an entry above the chain head (heights in `[0, 2^63)`)
that the type and `IMMATURE` filters do not drop, and the request is in
query-all mode or the kept entries before that entry do not lift the safe sum
to the minimum, the request aborts: it returns neither a list nor an error. -/
theorem request_aborts_above_head (env : Env) (q : Qtum) (params : GetUTXOsRequest)
    (resp pre post : List UTXO) (utxo : UTXO) (blockCount : Int)
    (mempoolUxtoHashes : List String)
    (hA : NodeAnswers env q params resp blockCount mempoolUxtoHashes)
    (hsplit : resp = pre ++ utxo :: post)
    (hbc : 0 ≤ blockCount) (h0 : blockCount < utxo.Height) (h1 : utxo.Height < 2 ^ 63)
    (hacc : processUTXO env blockCount q.GetMatureBlockHeight mempoolUxtoHashes
      (allUtxoTypesOf params.Types) params.Types utxo ≠ .skip)
    (hcut : env.convertFromQtumToSatoshis params.MinSumAmount = 0 ∨
      ∀ n, 0 < n →
        n ≤ (keptPairs env blockCount q.GetMatureBlockHeight mempoolUxtoHashes
          (allUtxoTypesOf params.Types) params.Types pre).length →
        safeSum ((keptPairs env blockCount q.GetMatureBlockHeight mempoolUxtoHashes
          (allUtxoTypesOf params.Types) params.Types pre).take n)
          < env.convertFromQtumToSatoshis params.MinSumAmount) :
    ∃ msg, request env q params = .panicked msg := by
  obtain ⟨msg0, hab⟩ := processUTXO_above_head env blockCount _ _ _ _ utxo hbc h0 h1 hacc
  rw [request_of_answers env q params resp blockCount mempoolUxtoHashes hA, hsplit]
  refine selectLoop_reaches_abort env blockCount _ _ _ _ _ _ utxo post msg0 hab pre [] 0 ?_
  rcases hcut with hz | hcut
  · exact Or.inl (by simp [hz])
  · exact Or.inr (fun n hn hle => by simpa using hcut n hn hle)

/-- C11, witness: with every type accepted and in query-all mode, an entry at
height 200 above the chain head 105 makes the request abort. -/
theorem request_aborts_above_head_witness :
    ∃ msg, request sampleEnv (walletNode 105 [sampleUTXO "a" 3 200]) (sampleParams 0)
      = .panicked msg :=
  request_aborts_above_head sampleEnv (walletNode 105 [sampleUTXO "a" 3 200]) (sampleParams 0)
    [sampleUTXO "a" 3 200] [] [] (sampleUTXO "a" 3 200) 105 ["spent"]
    (sampleAnswers 105 _ 0) rfl (by norm_num) (by decide) (by decide) (by decide!)
    (Or.inl (by decide!))

/-! ## UTXO selection: the type filter -/

/-- With the flag `allUtxoTypes` set, the loop body drops no entry. -/
theorem processUTXO_all_ne_skip (env : Env) (blockCount matureBlockHeight : Int)
    (mempoolUxtoHashes : List String) (utxoTypes : List UTXOScriptType) (utxo : UTXO) :
    processUTXO env blockCount matureBlockHeight mempoolUxtoHashes true utxoTypes utxo
      ≠ .skip := by
  intro h
  unfold processUTXO at h
  simp only [Bool.not_true, Bool.false_and, Bool.and_false, Bool.false_eq_true, if_false] at h
  split at h <;> cases h

/-- C12, as stated, fails: the accepted types are pay-to-script-hash and, in
the second position, the sentinel `ALL`; the wallet's pay-to-pubkey-hash entry
is dropped by the type filter and the request returns an empty list. -/
theorem request_all_sentinel_second_is_ignored :
    UTXOScriptType.ALL_UTXO_TYPES
        ∈ [UTXOScriptType.script "P2SH", UTXOScriptType.ALL_UTXO_TYPES]
      ∧ processUTXO sampleEnv 105 500 ["spent"]
          (allUtxoTypesOf [UTXOScriptType.script "P2SH", UTXOScriptType.ALL_UTXO_TYPES])
          [UTXOScriptType.script "P2SH", UTXOScriptType.ALL_UTXO_TYPES]
          (sampleUTXO "a" 3 100) = .skip
      ∧ request sampleEnv (walletNode 105 [sampleUTXO "a" 3 100])
          (typedParams 0 [UTXOScriptType.script "P2SH", UTXOScriptType.ALL_UTXO_TYPES])
        = .returned (some []) none := by
  decide!

/-- C12, amended (ALL sentinel): when the list of accepted types is empty or
its first element is the sentinel `ALL`, the flag `allUtxoTypes` is set and
the loop body drops no entry, whatever its script type and maturity: neither
the type filter nor the `IMMATURE` filter excludes it. -/
theorem allUtxoTypes_accepts_every_entry (env : Env) (types : List UTXOScriptType)
    (h : types = [] ∨ ∃ rest, types = UTXOScriptType.ALL_UTXO_TYPES :: rest) :
    allUtxoTypesOf types = true
      ∧ ∀ (blockCount matureBlockHeight : Int) (mempoolUxtoHashes : List String) (utxo : UTXO),
        processUTXO env blockCount matureBlockHeight mempoolUxtoHashes (allUtxoTypesOf types)
          types utxo ≠ .skip := by
  have hall : allUtxoTypesOf types = true := by
    rcases h with rfl | ⟨rest, rfl⟩ <;> simp [allUtxoTypesOf]
  refine ⟨hall, fun blockCount matureBlockHeight mempoolUxtoHashes utxo => ?_⟩
  rw [hall]
  exact processUTXO_all_ne_skip env blockCount matureBlockHeight mempoolUxtoHashes types utxo

/-- C12, witness: with `ALL` first, followed by another type, the immature
stake output of the sample wallet is not dropped. -/
theorem allUtxoTypes_accepts_every_entry_witness :
    processUTXO sampleEnv 105 500 []
        (allUtxoTypesOf [UTXOScriptType.ALL_UTXO_TYPES, UTXOScriptType.script "P2SH"])
        [UTXOScriptType.ALL_UTXO_TYPES, UTXOScriptType.script "P2SH"] sampleStake ≠ .skip :=
  (allUtxoTypes_accepts_every_entry sampleEnv
    [UTXOScriptType.ALL_UTXO_TYPES, UTXOScriptType.script "P2SH"]
    (Or.inr ⟨_, rfl⟩)).2 105 500 [] sampleStake

/-! ## UTXO selection: query-all mode -/

/-- Query-all mode, no entry aborting: the loop returns what it had
accumulated followed by every kept entry, in node order. -/
theorem selectLoop_all (env : Env) (blockCount matureBlockHeight : Int)
    (mempoolUxtoHashes : List String) (allUtxoTypes : Bool) (utxoTypes : List UTXOScriptType)
    (minimumSum : ℚ) :
    ∀ (l : List UTXO) (utxos : List QtumUTXO) (sum : ℚ),
      (∀ u ∈ l, ∀ msg, processUTXO env blockCount matureBlockHeight mempoolUxtoHashes
        allUtxoTypes utxoTypes u ≠ .abort msg) →
      selectLoop env blockCount matureBlockHeight mempoolUxtoHashes allUtxoTypes utxoTypes
          true minimumSum l utxos sum
        = .returned (some (utxos ++ (keptPairs env blockCount matureBlockHeight
            mempoolUxtoHashes allUtxoTypes utxoTypes l).map Prod.snd)) none
  | [], utxos, sum, _ => by simp [selectLoop, keptPairs]
  | utxo :: rest, utxos, sum, hna => by
    have hna' : ∀ u ∈ rest, ∀ msg, processUTXO env blockCount matureBlockHeight
        mempoolUxtoHashes allUtxoTypes utxoTypes u ≠ .abort msg :=
      fun u hu => hna u (List.mem_cons_of_mem _ hu)
    cases hp : processUTXO env blockCount matureBlockHeight mempoolUxtoHashes allUtxoTypes
        utxoTypes utxo with
    | skip =>
      rw [selectLoop_skip _ _ _ _ _ _ _ _ _ _ _ _ hp, keptPairs_skip _ _ _ _ _ _ _ _ hp]
      exact selectLoop_all env blockCount matureBlockHeight mempoolUxtoHashes allUtxoTypes
        utxoTypes minimumSum rest utxos sum hna'
    | abort msg => exact absurd hp (hna utxo (List.mem_cons_self _ _) msg)
    | keep e =>
      rw [selectLoop_keep_all _ _ _ _ _ _ _ _ _ _ _ _ hp, keptPairs_keep _ _ _ _ _ _ _ _ _ hp,
        selectLoop_all env blockCount matureBlockHeight mempoolUxtoHashes allUtxoTypes
          utxoTypes minimumSum rest _ _ hna']
      simp

/-- Query-all mode: a returned list is what had been accumulated followed by
every kept entry, in node order. -/
theorem selectLoop_all_returned (env : Env) (blockCount matureBlockHeight : Int)
    (mempoolUxtoHashes : List String) (allUtxoTypes : Bool) (utxoTypes : List UTXOScriptType)
    (minimumSum : ℚ) :
    ∀ (l : List UTXO) (utxos : List QtumUTXO) (sum : ℚ) (out : List QtumUTXO),
      selectLoop env blockCount matureBlockHeight mempoolUxtoHashes allUtxoTypes utxoTypes
          true minimumSum l utxos sum = .returned (some out) none →
      out = utxos ++ (keptPairs env blockCount matureBlockHeight mempoolUxtoHashes
        allUtxoTypes utxoTypes l).map Prod.snd
  | [], utxos, sum, out, h => by
    simp only [selectLoop, if_true] at h
    injection h with h1 _
    injection h1 with h2
    simp [keptPairs, ← h2]
  | utxo :: rest, utxos, sum, out, h => by
    cases hp : processUTXO env blockCount matureBlockHeight mempoolUxtoHashes allUtxoTypes
        utxoTypes utxo with
    | skip =>
      rw [selectLoop_skip _ _ _ _ _ _ _ _ _ _ _ _ hp] at h
      rw [keptPairs_skip _ _ _ _ _ _ _ _ hp]
      exact selectLoop_all_returned env blockCount matureBlockHeight mempoolUxtoHashes
        allUtxoTypes utxoTypes minimumSum rest utxos sum out h
    | abort msg =>
      rw [selectLoop_abort _ _ _ _ _ _ _ _ _ _ _ _ _ hp] at h
      cases h
    | keep e =>
      rw [selectLoop_keep_all _ _ _ _ _ _ _ _ _ _ _ _ hp] at h
      rw [keptPairs_keep _ _ _ _ _ _ _ _ _ hp,
        selectLoop_all_returned env blockCount matureBlockHeight mempoolUxtoHashes
          allUtxoTypes utxoTypes minimumSum rest _ _ out h]
      simp

/-- C13 (query-all mode): when the minimum sum is exactly zero and no entry of
the node's list is above the chain head (heights in `[0, 2^63)`), the request
returns, without error, every entry the type and maturity filters keep, in
the node's order. -/
theorem request_query_all (env : Env) (q : Qtum) (params : GetUTXOsRequest)
    (resp : List UTXO) (blockCount : Int) (mempoolUxtoHashes : List String)
    (hA : NodeAnswers env q params resp blockCount mempoolUxtoHashes)
    (hzero : env.convertFromQtumToSatoshis params.MinSumAmount = 0)
    (hbc : blockCount < 2 ^ 63)
    (hh : ∀ u ∈ resp, 0 ≤ u.Height ∧ u.Height ≤ blockCount) :
    request env q params
        = .returned (some ((keptPairs env blockCount q.GetMatureBlockHeight mempoolUxtoHashes
            (allUtxoTypesOf params.Types) params.Types resp).map Prod.snd)) none
      ∧ request env q params ≠ .returned none (some (NewCallbackError minimumSumMessage)) := by
  have hq : decide (env.convertFromQtumToSatoshis params.MinSumAmount = 0) = true :=
    decide_eq_true hzero
  have hna : ∀ u ∈ resp, ∀ msg, processUTXO env blockCount q.GetMatureBlockHeight
      mempoolUxtoHashes (allUtxoTypesOf params.Types) params.Types u ≠ .abort msg :=
    fun u hu msg => processUTXO_ne_abort env blockCount _ _ _ _ u hbc (hh u hu).1 (hh u hu).2 msg
  have hr := selectLoop_all env blockCount q.GetMatureBlockHeight mempoolUxtoHashes
    (allUtxoTypesOf params.Types) params.Types
    (env.convertFromQtumToSatoshis params.MinSumAmount) resp [] 0 hna
  rw [request_of_answers env q params resp blockCount mempoolUxtoHashes hA, hq, hr]
  refine ⟨by simp, ?_⟩
  intro h
  injection h with h1 _
  cases h1

/-- C13, witness: with the minimum sum zero the sample wallet's three entries
are all returned, in the node's order. -/
theorem request_query_all_witness :
    request sampleEnv (walletNode 105 sampleUTXOs) (sampleParams 0)
      = .returned (some [sampleEntry "a", sampleEntry "b", sampleEntry "c"]) none := by
  have h := (request_query_all sampleEnv (walletNode 105 sampleUTXOs) (sampleParams 0)
    sampleUTXOs 105 ["spent"] (sampleAnswers 105 sampleUTXOs 0) (by decide!)
    (by norm_num) sampleUTXOs_wellformed.2).1
  rw [h]
  decide!

/-! ## UTXO selection: immature entries -/

/-- When the loop body drops an entry: the type filter rejects its script
type, or it is an immature coinbase or stake output and `IMMATURE` is not
accepted. -/
theorem processUTXO_eq_skip_iff (env : Env) (blockCount matureBlockHeight : Int)
    (mempoolUxtoHashes : List String) (allUtxoTypes : Bool) (utxoTypes : List UTXOScriptType)
    (utxo : UTXO) :
    processUTXO env blockCount matureBlockHeight mempoolUxtoHashes allUtxoTypes utxoTypes utxo
        = .skip
      ↔ (allUtxoTypes = false ∧ utxoTypes.contains (scriptTypeOf env utxo) = false)
        ∨ (((utxo.IsStake || utxo.IsBase) && notMatured blockCount matureBlockHeight utxo) = true
          ∧ allUtxoTypes = false ∧ utxoTypes.contains UTXOScriptType.IMMATURE = false) := by
  have hst : scriptTypeOf env utxo = env.GetType { toEthResponseType env utxo with
      Height := wrapUint64 (bigInt64 utxo.Height), ScriptPubKey := utxo.Script } := rfl
  unfold processUTXO
  dsimp only
  rw [← hst]
  generalize utxoTypes.contains (scriptTypeOf env utxo) = c0
  generalize utxoTypes.contains UTXOScriptType.IMMATURE = c3
  generalize ((utxo.IsStake || utxo.IsBase) && notMatured blockCount matureBlockHeight utxo) = c2
  cases allUtxoTypes <;> cases c0 <;> cases c2 <;> cases c3 <;>
    simp only [Bool.not_true, Bool.not_false, Bool.and_true, Bool.true_and, Bool.and_false,
      Bool.false_and, Bool.false_eq_true, if_true, if_false, true_and, and_true, and_false,
      false_and, or_false, false_or, or_true, true_or, iff_true, and_self] <;>
    first
      | rfl
      | trivial
      | (constructor
         · intro h
           split at h <;> cases h
         · intro h
           simp at h)

/-- C9 (maturity boundary): for a coinbase or stake entry at a height `H`
(below `2^63`) and the maturity depth `D`, the loop treats the entry as
immature exactly when the current height is at most `H + D`. The immature
branch is taken exactly then; an entry the loop keeps has `Safe = false`
exactly when it is in the in-flight set or the height is at most `H + D`; an
immature entry is dropped when neither all types nor `IMMATURE` are accepted;
the height `H + D` is immature and `H + D + 1` is mature. And for an entry
not above a chain head below `2^63` whose script type passes the type filter:
at a height of at most `H + D` it is kept, with `Safe = false`, when all types
or `IMMATURE` are accepted; at a height above `H + D` it is kept whether or
not `IMMATURE` is accepted, with `Safe = true` unless it is in the in-flight
set. -/
theorem maturity_boundary (env : Env) (blockCount matureBlockHeight : Int)
    (mempoolUxtoHashes : List String) (allUtxoTypes : Bool) (utxoTypes : List UTXOScriptType)
    (utxo : UTXO) (hflag : utxo.IsStake = true ∨ utxo.IsBase = true)
    (h0 : 0 ≤ utxo.Height) (h1 : utxo.Height < 2 ^ 63) :
    (((utxo.IsStake || utxo.IsBase) && notMatured blockCount matureBlockHeight utxo) = true
        ↔ blockCount ≤ utxo.Height + matureBlockHeight)
      ∧ (∀ e, processUTXO env blockCount matureBlockHeight mempoolUxtoHashes allUtxoTypes
            utxoTypes utxo = .keep e →
          (e.Safe = false ↔
            (utxo.TXID ∈ mempoolUxtoHashes ∨ blockCount ≤ utxo.Height + matureBlockHeight)))
      ∧ (blockCount ≤ utxo.Height + matureBlockHeight → allUtxoTypes = false →
          utxoTypes.contains UTXOScriptType.IMMATURE = false →
          processUTXO env blockCount matureBlockHeight mempoolUxtoHashes allUtxoTypes
            utxoTypes utxo = .skip)
      ∧ notMatured (utxo.Height + matureBlockHeight) matureBlockHeight utxo = true
      ∧ notMatured (utxo.Height + matureBlockHeight + 1) matureBlockHeight utxo = false
      ∧ (utxo.Height ≤ blockCount → blockCount < 2 ^ 63 →
          (allUtxoTypes = true ∨ utxoTypes.contains (scriptTypeOf env utxo) = true) →
          (blockCount ≤ utxo.Height + matureBlockHeight →
            (allUtxoTypes = true ∨ utxoTypes.contains UTXOScriptType.IMMATURE = true) →
            ∃ e, processUTXO env blockCount matureBlockHeight mempoolUxtoHashes allUtxoTypes
                utxoTypes utxo = .keep e
              ∧ e.Safe = false ∧ e.Confirmations = blockCount - utxo.Height)
          ∧ (utxo.Height + matureBlockHeight < blockCount →
            ∃ e, processUTXO env blockCount matureBlockHeight mempoolUxtoHashes allUtxoTypes
                utxoTypes utxo = .keep e
              ∧ e.Safe = !(Contains mempoolUxtoHashes utxo.TXID)
              ∧ e.Confirmations = blockCount - utxo.Height)) := by
  have eh : bigInt64 utxo.Height = utxo.Height := bigInt64_of_range h0 h1
  have hf : (utxo.IsStake || utxo.IsBase) = true := by
    rcases hflag with h | h <;> simp [h]
  have hn : ∀ bc : Int, notMatured bc matureBlockHeight utxo = true
      ↔ bc ≤ utxo.Height + matureBlockHeight := by
    intro bc
    simp [notMatured, eh]
  refine ⟨by rw [hf, Bool.true_and]; exact hn blockCount, ?_, ?_, (hn _).mpr (le_refl _), ?_, ?_⟩
  · intro e hk
    obtain ⟨_, _, _, _, _, _, e7⟩ := processUTXO_keep env blockCount _ _ _ _ utxo e hk
    rw [e7, hf, ← Contains_iff_mem, ← hn blockCount]
    by_cases c1 : Contains mempoolUxtoHashes utxo.TXID = true <;>
      by_cases c2 : notMatured blockCount matureBlockHeight utxo = true <;> simp [c1, c2]
  · intro hle hall himm
    have hnm : notMatured blockCount matureBlockHeight utxo = true := (hn _).mpr hle
    have himm' : UTXOScriptType.IMMATURE ∉ utxoTypes := by simpa using himm
    unfold processUTXO
    dsimp only
    split
    · rfl
    · simp [hf, hnm, hall, himm']
  · have h := hn (utxo.Height + matureBlockHeight + 1)
    have hfalse : ¬ (utxo.Height + matureBlockHeight + 1 ≤ utxo.Height + matureBlockHeight) := by
      omega
    cases hc : notMatured (utxo.Height + matureBlockHeight + 1) matureBlockHeight utxo with
    | false => rfl
    | true => exact absurd (h.mp hc) hfalse
  · intro hle hbc htype
    have eb : bigInt64 blockCount = blockCount := bigInt64_of_range (by omega) hbc
    have hconf : wrapInt64 (bigInt64 blockCount - bigInt64 utxo.Height)
        = blockCount - utxo.Height := by
      rw [eb, eh]
      exact wrapInt64_of_range (by omega) (by omega)
    have hskip := processUTXO_eq_skip_iff env blockCount matureBlockHeight mempoolUxtoHashes
      allUtxoTypes utxoTypes utxo
    have hna := processUTXO_ne_abort env blockCount matureBlockHeight mempoolUxtoHashes
      allUtxoTypes utxoTypes utxo hbc h0 hle
    have htype' : ¬ (allUtxoTypes = false
        ∧ utxoTypes.contains (scriptTypeOf env utxo) = false) := by
      rintro ⟨a, b⟩
      rcases htype with h | h
      · rw [a] at h; cases h
      · rw [b] at h; cases h
    constructor
    · intro himm hacc
      have hacc' : ¬ (allUtxoTypes = false
          ∧ utxoTypes.contains UTXOScriptType.IMMATURE = false) := by
        rintro ⟨a, b⟩
        rcases hacc with h | h
        · rw [a] at h; cases h
        · rw [b] at h; cases h
      cases hp : processUTXO env blockCount matureBlockHeight mempoolUxtoHashes allUtxoTypes
          utxoTypes utxo with
      | skip =>
        rcases hskip.mp hp with h | ⟨_, a, b⟩
        · exact absurd h htype'
        · exact absurd ⟨a, b⟩ hacc'
      | abort msg => exact absurd hp (hna msg)
      | keep e =>
        obtain ⟨_, _, _, e4, _, _, e7⟩ := processUTXO_keep env blockCount _ _ _ _ utxo e hp
        refine ⟨e, rfl, ?_, by rw [e4, hconf]⟩
        rw [e7, hf, (hn blockCount).mpr himm]
        simp
    · intro hmat
      have hnm : notMatured blockCount matureBlockHeight utxo = false := by
        cases hc : notMatured blockCount matureBlockHeight utxo with
        | false => rfl
        | true => exact absurd ((hn blockCount).mp hc) (not_le.mpr hmat)
      cases hp : processUTXO env blockCount matureBlockHeight mempoolUxtoHashes allUtxoTypes
          utxoTypes utxo with
      | skip =>
        rcases hskip.mp hp with h | ⟨a, _, _⟩
        · exact absurd h htype'
        · rw [hf, hnm] at a
          cases a
      | abort msg => exact absurd hp (hna msg)
      | keep e =>
        obtain ⟨_, _, _, e4, _, _, e7⟩ := processUTXO_keep env blockCount _ _ _ _ utxo e hp
        refine ⟨e, rfl, ?_, by rw [e4, hconf]⟩
        rw [e7, hf, hnm]
        simp

/-- C9, witness: a stake output created at height 100, with the maturity
depth 500 and pay-to-pubkey accepted but `IMMATURE` not. At height 600 the
request runs the loop and returns nothing; with every type accepted it returns
the entry with `Safe = false`; at height 601 it returns the entry with
`Safe = true`, as the boundary theorem says of the loop body. -/
theorem maturity_boundary_witness :
    (notMatured 600 500 sampleStake = true ∧ notMatured 601 500 sampleStake = false)
      ∧ request sampleEnv (walletNode 600 [sampleStake])
          (typedParams 0 [UTXOScriptType.script "P2PK"]) = .returned (some []) none
      ∧ request sampleEnv (walletNode 600 [sampleStake]) (sampleParams 0)
        = .returned (some [{ sampleStakeEntry with Confirmations := 500 }]) none
      ∧ request sampleEnv (walletNode 601 [sampleStake])
          (typedParams 0 [UTXOScriptType.script "P2PK"])
        = .returned (some [{ sampleStakeEntry with Safe := true, Confirmations := 501 }]) none
      ∧ (∃ e, processUTXO sampleEnv 600 500 ["spent"] true [] sampleStake = .keep e
          ∧ e.Safe = false ∧ e.Confirmations = 600 - sampleStake.Height)
      ∧ ∃ e, processUTXO sampleEnv 601 500 ["spent"] false [UTXOScriptType.script "P2PK"]
            sampleStake = .keep e
          ∧ e.Safe = !(Contains ["spent"] sampleStake.TXID)
          ∧ e.Confirmations = 601 - sampleStake.Height := by
  have h600 := maturity_boundary sampleEnv 600 500 ["spent"] true [] sampleStake (Or.inl rfl)
    (by decide) (by decide)
  have h601 := maturity_boundary sampleEnv 601 500 ["spent"] false
    [UTXOScriptType.script "P2PK"] sampleStake (Or.inl rfl) (by decide) (by decide)
  refine ⟨⟨h600.2.2.2.1, h600.2.2.2.2.1⟩, by decide!, by decide!, by decide!, ?_, ?_⟩
  · exact (h600.2.2.2.2.2 (by decide) (by decide) (Or.inl rfl)).1 (by decide) (Or.inl rfl)
  · exact (h601.2.2.2.2.2 (by decide) (by decide) (Or.inr (by decide))).2 (by decide)

/-- Query-all mode: when the loop returns a list, its body aborted on no
entry. -/
theorem selectLoop_all_no_abort (env : Env) (blockCount matureBlockHeight : Int)
    (mempoolUxtoHashes : List String) (allUtxoTypes : Bool) (utxoTypes : List UTXOScriptType)
    (minimumSum : ℚ) :
    ∀ (l : List UTXO) (utxos : List QtumUTXO) (sum : ℚ) (out : List QtumUTXO),
      selectLoop env blockCount matureBlockHeight mempoolUxtoHashes allUtxoTypes utxoTypes
          true minimumSum l utxos sum = .returned (some out) none →
      ∀ u ∈ l, ∀ msg, processUTXO env blockCount matureBlockHeight mempoolUxtoHashes
        allUtxoTypes utxoTypes u ≠ .abort msg
  | [], _, _, _, _, u, hu, _ => by cases hu
  | utxo :: rest, utxos, sum, out, h, u, hu, msg => by
    cases hp : processUTXO env blockCount matureBlockHeight mempoolUxtoHashes allUtxoTypes
        utxoTypes utxo with
    | skip =>
      rw [selectLoop_skip _ _ _ _ _ _ _ _ _ _ _ _ hp] at h
      rcases List.mem_cons.mp hu with rfl | hu'
      · rw [hp]; exact fun e => by cases e
      · exact selectLoop_all_no_abort env blockCount matureBlockHeight mempoolUxtoHashes
          allUtxoTypes utxoTypes minimumSum rest utxos sum out h u hu' msg
    | abort msg' =>
      rw [selectLoop_abort _ _ _ _ _ _ _ _ _ _ _ _ _ hp] at h
      cases h
    | keep e =>
      rw [selectLoop_keep_all _ _ _ _ _ _ _ _ _ _ _ _ hp] at h
      rcases List.mem_cons.mp hu with rfl | hu'
      · rw [hp]; exact fun e => by cases e
      · exact selectLoop_all_no_abort env blockCount matureBlockHeight mempoolUxtoHashes
          allUtxoTypes utxoTypes minimumSum rest _ _ out h u hu' msg

/-- A node entry the loop body keeps is among the kept pairs. -/
theorem keptPairs_mem_of_keep (env : Env) (blockCount matureBlockHeight : Int)
    (mempoolUxtoHashes : List String) (allUtxoTypes : Bool) (utxoTypes : List UTXOScriptType)
    (u : UTXO) (e : QtumUTXO)
    (hk : processUTXO env blockCount matureBlockHeight mempoolUxtoHashes allUtxoTypes
      utxoTypes u = .keep e) :
    ∀ l : List UTXO, u ∈ l →
      (u, e) ∈ keptPairs env blockCount matureBlockHeight mempoolUxtoHashes allUtxoTypes
        utxoTypes l
  | [], hu => by cases hu
  | v :: rest, hu => by
    rcases List.mem_cons.mp hu with rfl | hu'
    · rw [keptPairs_keep _ _ _ _ _ _ _ _ _ hk]
      exact List.mem_cons_self _ _
    · have ih := keptPairs_mem_of_keep env blockCount matureBlockHeight mempoolUxtoHashes
        allUtxoTypes utxoTypes u e hk rest hu'
      simp only [keptPairs]
      split
      · exact List.mem_cons_of_mem _ ih
      · exact ih

/-- C14 (immature exclusion): in query-all mode, when the request returns a
list, an immature coinbase or stake entry of the node's list whose script type
passes the type filter appears in the returned list exactly when all types
are accepted or `IMMATURE` is among the accepted types; and the entry the loop
makes of it has `Safe = false`. -/
theorem request_immature_entry (env : Env) (q : Qtum) (params : GetUTXOsRequest)
    (resp : List UTXO) (blockCount : Int) (mempoolUxtoHashes : List String)
    (out : List QtumUTXO) (utxo : UTXO)
    (hA : NodeAnswers env q params resp blockCount mempoolUxtoHashes)
    (hzero : env.convertFromQtumToSatoshis params.MinSumAmount = 0)
    (hs : request env q params = .returned (some out) none)
    (hu : utxo ∈ resp)
    (hflag : utxo.IsStake = true ∨ utxo.IsBase = true)
    (himm : blockCount ≤ bigInt64 utxo.Height + q.GetMatureBlockHeight)
    (htype : allUtxoTypesOf params.Types = true
      ∨ params.Types.contains (scriptTypeOf env utxo) = true) :
    ((∃ e ∈ out, processUTXO env blockCount q.GetMatureBlockHeight mempoolUxtoHashes
          (allUtxoTypesOf params.Types) params.Types utxo = .keep e)
        ↔ (allUtxoTypesOf params.Types = true
          ∨ UTXOScriptType.IMMATURE ∈ params.Types))
      ∧ ∀ e, processUTXO env blockCount q.GetMatureBlockHeight mempoolUxtoHashes
          (allUtxoTypesOf params.Types) params.Types utxo = .keep e → e.Safe = false := by
  have hq : decide (env.convertFromQtumToSatoshis params.MinSumAmount = 0) = true :=
    decide_eq_true hzero
  rw [request_of_answers env q params resp blockCount mempoolUxtoHashes hA, hq] at hs
  have hout := selectLoop_all_returned env blockCount _ _ _ _ _ resp [] 0 out hs
  have hna := selectLoop_all_no_abort env blockCount _ _ _ _ _ resp [] 0 out hs utxo hu
  have hf : (utxo.IsStake || utxo.IsBase) = true := by
    rcases hflag with h | h <;> simp [h]
  have hnm : notMatured blockCount q.GetMatureBlockHeight utxo = true := by
    simp [notMatured, himm]
  have hskip := processUTXO_eq_skip_iff env blockCount q.GetMatureBlockHeight
    mempoolUxtoHashes (allUtxoTypesOf params.Types) params.Types utxo
  rw [hf, hnm] at hskip
  constructor
  · constructor
    · rintro ⟨e, _, hk⟩
      by_contra hcon
      rw [not_or] at hcon
      have h1 : allUtxoTypesOf params.Types = false := by simpa using hcon.1
      have h2 : params.Types.contains UTXOScriptType.IMMATURE = false := by simpa using hcon.2
      have := hskip.mpr (Or.inr ⟨rfl, h1, h2⟩)
      rw [hk] at this
      cases this
    · intro hacc
      cases hp : processUTXO env blockCount q.GetMatureBlockHeight mempoolUxtoHashes
          (allUtxoTypesOf params.Types) params.Types utxo with
      | abort msg => exact absurd hp (hna msg)
      | keep e =>
        refine ⟨e, ?_, rfl⟩
        rw [hout, List.nil_append]
        exact List.mem_map.mpr ⟨(utxo, e),
          keptPairs_mem_of_keep env blockCount _ _ _ _ utxo e hp resp hu, rfl⟩
      | skip =>
        exfalso
        rcases hskip.mp hp with ⟨h1, h2⟩ | ⟨_, h1, h2⟩
        · rcases htype with h | h
          · rw [h1] at h; cases h
          · rw [h2] at h; cases h
        · rcases hacc with h | h
          · rw [h1] at h; cases h
          · have : params.Types.contains UTXOScriptType.IMMATURE = true := by simpa using h
            rw [h2] at this; cases this
  · intro e hk
    obtain ⟨_, _, _, _, _, _, e7⟩ := processUTXO_keep env blockCount _ _ _ _ utxo e hk
    rw [e7, hf, hnm]
    simp

/-- C14, witness: the immature stake output of the sample wallet, at chain
height 105. With every type accepted it is returned, marked `Safe = false`;
with pay-to-pubkey accepted and `IMMATURE` not, it is not returned. -/
theorem request_immature_entry_witness :
    (request sampleEnv (walletNode 105 [sampleStake]) (sampleParams 0)
        = .returned (some [sampleStakeEntry]) none
      ∧ ∃ e ∈ [sampleStakeEntry],
        processUTXO sampleEnv 105 500 ["spent"] true [] sampleStake = .keep e)
      ∧ (request sampleEnv (walletNode 105 [sampleStake])
          (typedParams 0 [UTXOScriptType.script "P2PK"]) = .returned (some []) none
        ∧ ¬ ∃ e ∈ ([] : List QtumUTXO),
          processUTXO sampleEnv 105 500 ["spent"] false [UTXOScriptType.script "P2PK"]
            sampleStake = .keep e) := by
  have hs1 : request sampleEnv (walletNode 105 [sampleStake]) (sampleParams 0)
      = .returned (some [sampleStakeEntry]) none := by decide!
  have hs2 : request sampleEnv (walletNode 105 [sampleStake])
      (typedParams 0 [UTXOScriptType.script "P2PK"]) = .returned (some []) none := by decide!
  have h1 := (request_immature_entry sampleEnv (walletNode 105 [sampleStake]) (sampleParams 0)
    [sampleStake] 105 ["spent"] [sampleStakeEntry] sampleStake (sampleAnswers 105 _ 0)
    (by decide!) hs1 (List.mem_singleton_self _) (Or.inl rfl) (by decide) (Or.inl rfl)).1
  have h2 := (request_immature_entry sampleEnv (walletNode 105 [sampleStake])
    (typedParams 0 [UTXOScriptType.script "P2PK"])
    [sampleStake] 105 ["spent"] [] sampleStake ⟨"aa", ["m1"], rfl, rfl, rfl, rfl, rfl⟩
    (by decide!) hs2 (List.mem_singleton_self _) (Or.inl rfl) (by decide)
    (Or.inr (by decide))).1
  exact ⟨⟨hs1, h1.mpr (Or.inl rfl)⟩, hs2, fun h => by
    have := h2.mp h
    revert this
    decide⟩

/-! ## Block filter: repeated polls and failures -/

/-- A successful block-filter poll stores the block count as the cursor. -/
theorem requestBlockFilter_success_data (env : Env) (q : Qtum) (filter : Filter)
    (blockCountBigInt : Int) (hashes : GetFilterChangesResponse)
    (hc : q.GetBlockCount = .ok blockCountBigInt)
    (hs : (requestBlockFilter env q filter).result = .returned hashes none) :
    (requestBlockFilter env q filter).Data.Load "lastBlockNumber"
      = some (.uint64 (bigUint64 blockCountBigInt)) := by
  unfold requestBlockFilter at hs ⊢
  split at hs
  · cases hs
  · rename_i L hL
    simp only [hL, hc] at hs ⊢
    split at hs
    · cases hs
    · rename_i hlen
      rw [if_neg hlen]
      split at hs
      · cases hs
      · rename_i hashes' calls hf
        simp only [hf]
        simp [SyncMap.Load, SyncMap.Store]
  · cases hs

/-- A block-filter poll with the cursor at the current height: no hash is
fetched, the answer is empty and the cursor stays. -/
theorem requestBlockFilter_at_height (env : Env) (q : Qtum) (filter : Filter)
    (L : Nat) (blockCountBigInt : Int)
    (hL : filter.Data.Load "lastBlockNumber" = some (.uint64 L))
    (hc : q.GetBlockCount = .ok blockCountBigInt)
    (hH : bigUint64 blockCountBigInt = L) :
    (requestBlockFilter env q filter).result = .returned [] none
      ∧ (requestBlockFilter env q filter).Data.Load "lastBlockNumber" = some (.uint64 L)
      ∧ (requestBlockFilter env q filter).calls = [Call.GetBlockCount] := by
  have hL64 : L < 2 ^ 64 := hH ▸ bigUint64_lt blockCountBigInt
  have hd : uint64Sub L L = 0 := by
    rw [uint64Sub_of_le (Nat.le_refl L) hL64]; omega
  have hnot : makesliceAborts 16 0 = false := by decide
  refine ⟨?_, ?_, ?_⟩
  all_goals simp only [requestBlockFilter, hL, hc, hH, hd, hnot, Bool.false_eq_true, if_false,
    fetchHashes]
  simp [SyncMap.Load, SyncMap.Store]

/-- C15 (block-filter idempotence): after a successful poll at a height `H`, a
second poll of the filter, with the `Data` the first poll left and the height
still `H`, returns the empty sequence without error and leaves the cursor at
`H`; and when the cursor was `H` already before the first poll, the first
poll returned the empty sequence too. -/
theorem requestBlockFilter_idempotent (env : Env) (q q' : Qtum) (filter : Filter)
    (blockCountBigInt blockCountBigInt' : Int) (hashes : GetFilterChangesResponse)
    (hc : q.GetBlockCount = .ok blockCountBigInt)
    (hs : (requestBlockFilter env q filter).result = .returned hashes none)
    (hc' : q'.GetBlockCount = .ok blockCountBigInt')
    (hsame : bigUint64 blockCountBigInt' = bigUint64 blockCountBigInt) :
    (requestBlockFilter env q filter).Data.Load "lastBlockNumber"
        = some (.uint64 (bigUint64 blockCountBigInt))
      ∧ (requestBlockFilter env q'
          { filter with Data := (requestBlockFilter env q filter).Data }).result
        = .returned [] none
      ∧ (requestBlockFilter env q'
          { filter with Data := (requestBlockFilter env q filter).Data }).Data.Load
          "lastBlockNumber" = some (.uint64 (bigUint64 blockCountBigInt))
      ∧ (filter.Data.Load "lastBlockNumber" = some (.uint64 (bigUint64 blockCountBigInt)) →
          hashes = []) := by
  have h1 := requestBlockFilter_success_data env q filter blockCountBigInt hashes hc hs
  have h2 := requestBlockFilter_at_height env q'
    { filter with Data := (requestBlockFilter env q filter).Data }
    (bigUint64 blockCountBigInt) blockCountBigInt' h1 hc' hsame
  refine ⟨h1, h2.1, h2.2.1, fun hL => ?_⟩
  have h3 := (requestBlockFilter_at_height env q filter (bigUint64 blockCountBigInt)
    blockCountBigInt hL hc rfl).1
  rw [h3] at hs
  injection hs with hs _
  exact hs.symm

/-- C15, witness: a filter with cursor 10 polled twice at height 13: after the
first poll the cursor is 13, and the second poll returns nothing and leaves
the cursor at 13. -/
theorem requestBlockFilter_idempotent_witness :
    (requestBlockFilter sampleEnv (sampleNode 13) (blockFilterAt 10)).Data.Load
        "lastBlockNumber" = some (.uint64 13)
      ∧ (requestBlockFilter sampleEnv (sampleNode 13)
          { blockFilterAt 10 with
            Data := (requestBlockFilter sampleEnv (sampleNode 13) (blockFilterAt 10)).Data }).result
        = .returned [] none
      ∧ (requestBlockFilter sampleEnv (sampleNode 13)
          { blockFilterAt 10 with
            Data := (requestBlockFilter sampleEnv (sampleNode 13)
              (blockFilterAt 10)).Data }).Data.Load "lastBlockNumber" = some (.uint64 13) := by
  have h := requestBlockFilter_idempotent sampleEnv (sampleNode 13) (sampleNode 13)
    (blockFilterAt 10) 13 13 [Item.hash "0xb11", Item.hash "0xb12", Item.hash "0xb13"]
    rfl (by decide) rfl rfl
  exact ⟨h.1, h.2.1, h.2.2.1⟩

/-- The loop over `hashes` when some hash query in its range fails: it ends
with the error of a failed query. -/
theorem fetchHashes_error (env : Env) (q : Qtum) (L : Nat) :
    ∀ (n i : Nat), L + i + n < 2 ^ 64 →
      (∃ j, i ≤ j ∧ j < i + n ∧ ∃ e, q.GetBlockHash ((L + 1 + j : Nat) : Int) = .error e) →
      ∃ j e, i ≤ j ∧ j < i + n ∧ q.GetBlockHash ((L + 1 + j : Nat) : Int) = .error e
        ∧ (fetchHashes env q L n i).1 = .error e
  | 0, i, _, ⟨j, h1, h2, _⟩ => by omega
  | n + 1, i, hlt, ⟨j, h1, h2, e, he⟩ => by
    have e1 : uint64Add (uint64Add L i) 1 = L + 1 + i := by
      have e0 : uint64Add L i = L + i := uint64Add_of_lt (by omega)
      rw [e0, uint64Add_of_lt (by omega)]; omega
    cases hq : q.GetBlockHash ((L + 1 + i : Nat) : Int) with
    | error e' =>
      refine ⟨i, e', Nat.le_refl i, by omega, hq, ?_⟩
      simp only [fetchHashes, e1, hq]
    | ok resp =>
      have hji : j ≠ i := by
        rintro rfl
        rw [hq] at he
        cases he
      obtain ⟨k, e', k1, k2, k3, k4⟩ := fetchHashes_error env q L n (i + 1) (by omega)
        ⟨j, by omega, by omega, e, he⟩
      refine ⟨k, e', by omega, by omega, k3, ?_⟩
      simp only [fetchHashes, e1, hq, k4, Except.map]

/-- C16 (block-filter failure is all-or-nothing): when the cursor is absent,
when the height query fails, and when a hash query for a block in `L+1 .. H`
fails (with `H - L` a length `make` accepts), `requestBlockFilter` returns the empty sequence with a `CallbackError`,
whose message is "Could not get lastBlockNumber", the message of the height
query, or the message of a failed hash query, and the filter's `Data` is what
it was before the call. -/
theorem requestBlockFilter_failure (env : Env) (q : Qtum) (filter : Filter) :
    (filter.Data.Load "lastBlockNumber" = none →
        (requestBlockFilter env q filter).result
            = .returned [] (some (NewCallbackError "Could not get lastBlockNumber"))
          ∧ (requestBlockFilter env q filter).Data = filter.Data)
      ∧ (∀ (L : Nat) (e : String),
          filter.Data.Load "lastBlockNumber" = some (.uint64 L) →
          q.GetBlockCount = .error e →
          (requestBlockFilter env q filter).result = .returned [] (some (NewCallbackError e))
            ∧ (requestBlockFilter env q filter).Data = filter.Data)
      ∧ (∀ (L H : Nat) (blockCountBigInt : Int),
          filter.Data.Load "lastBlockNumber" = some (.uint64 L) →
          q.GetBlockCount = .ok blockCountBigInt →
          bigUint64 blockCountBigInt = H → L ≤ H → 16 * (H - L) ≤ maxAlloc →
          (∃ n : Nat, L < n ∧ n ≤ H ∧ ∃ e, q.GetBlockHash (n : Int) = .error e) →
          ∃ (n : Nat) (e : String), L < n ∧ n ≤ H ∧ q.GetBlockHash (n : Int) = .error e
            ∧ (requestBlockFilter env q filter).result
              = .returned [] (some (NewCallbackError e))
            ∧ (requestBlockFilter env q filter).Data = filter.Data) := by
  refine ⟨fun hL => ?_, fun L e hL hc => ?_, fun L H bc hL hc hH hLH hlen hfail => ?_⟩
  · simp only [requestBlockFilter, hL, and_self]
  · simp only [requestBlockFilter, hL, hc, and_self]
  · have hH64 : H < 2 ^ 64 := hH ▸ bigUint64_lt bc
    have hd : uint64Sub H L = H - L := uint64Sub_of_le hLH hH64
    have hnot : makesliceAborts 16 (H - L) = false := makesliceAborts_eq_false hlen
    obtain ⟨n, hn1, hn2, e, he⟩ := hfail
    obtain ⟨j, e', _, j2, j3, j4⟩ := fetchHashes_error env q L (H - L) 0 (by omega)
      ⟨n - (L + 1), Nat.zero_le _, by omega, e, by
        have : L + 1 + (n - (L + 1)) = n := by omega
        rw [this]; exact he⟩
    refine ⟨L + 1 + j, e', by omega, by omega, j3, ?_⟩
    cases hf : fetchHashes env q L (H - L) 0 with
    | mk r calls =>
      rw [hf] at j4
      simp only at j4
      subst j4
      simp only [requestBlockFilter, hL, hc, hH, hd, hnot, Bool.false_eq_true, if_false, hf,
        and_self]

/-- C16, witness: the cursor is 10 and the height 13; the hash of block 11 is
fetched, the hash query of block 12 fails: the poll returns the empty sequence
with the error of that query, and the cursor is still 10. -/
theorem requestBlockFilter_failure_witness :
    (requestBlockFilter sampleEnv (brokenHashNode 13) (blockFilterAt 10)).result
        = .returned [] (some (NewCallbackError "block not found"))
      ∧ (requestBlockFilter sampleEnv (brokenHashNode 13) (blockFilterAt 10)).Data.Load
          "lastBlockNumber" = some (.uint64 10) := by
  obtain ⟨n, e, _, _, hq, hr, hd⟩ :=
    (requestBlockFilter_failure sampleEnv (brokenHashNode 13) (blockFilterAt 10)).2.2
      10 13 13 rfl rfl rfl (by decide) (by decide) ⟨12, by decide, by decide, _, rfl⟩
  have he : e = "block not found" := by
    unfold brokenHashNode at hq
    dsimp only at hq
    split at hq
    · injection hq with h
      exact h.symm
    · cases hq
  rw [hr, hd, he]
  exact ⟨rfl, rfl⟩

/-! ## Dispatch on the filter kind -/

/-- C17, as stated, fails on the message: for a filter of the pending
transaction kind `Request` fails with `InvalidParams` and the message
"Unknown filter type", which is not the message "unknown filter type". -/
theorem Request_unknown_kind_message :
    (Request sampleEnv (sampleNode 8) (fun _ => .ok pendingFilter) "req").result
        = .returned [] (some (NewInvalidParamsError "Unknown filter type"))
      ∧ (Request sampleEnv (sampleNode 8) (fun _ => .ok pendingFilter) "req").result
        ≠ .returned [] (some (NewInvalidParamsError "unknown filter type")) := by
  decide

/-- C17, amended (filter-kind dispatch): for a resolved filter, `Request` is
`requestFilter` when the kind is `NewFilterTy` and `requestBlockFilter` when
it is `NewBlockFilterTy`; for every other kind, the pending-transaction kind
included, it fails with `InvalidParams` and the message "Unknown filter type",
issues no node query and leaves the filter's `Data` as it was. -/
theorem Request_dispatch (env : Env) (q : Qtum)
    (processFilter : String → Except JSONRPCError Filter) (rawreq : String) (filter : Filter)
    (hf : processFilter rawreq = .ok filter) :
    (filter.Type_ = .NewFilterTy →
        Request env q processFilter rawreq
          = ⟨(requestFilter env q filter).result, some (requestFilter env q filter).Data,
              (requestFilter env q filter).calls⟩)
      ∧ (filter.Type_ = .NewBlockFilterTy →
        Request env q processFilter rawreq
          = ⟨(requestBlockFilter env q filter).result,
              some (requestBlockFilter env q filter).Data,
              (requestBlockFilter env q filter).calls⟩)
      ∧ (filter.Type_ ≠ .NewFilterTy → filter.Type_ ≠ .NewBlockFilterTy →
        Request env q processFilter rawreq
          = ⟨.returned [] (some (NewInvalidParamsError "Unknown filter type")),
              some filter.Data, []⟩) := by
  refine ⟨fun h => ?_, fun h => ?_, fun h1 h2 => ?_⟩
  · simp only [Request, hf, h]
  · simp only [Request, hf, h]
  · unfold Request
    simp only [hf]
    split
    · rename_i h; exact absurd h h1
    · rename_i h; exact absurd h h2
    · rfl
    · rfl

/-- C17, witness: a filter of the pending-transaction kind is refused with
"Unknown filter type"; no node query is issued. -/
theorem Request_dispatch_witness :
    (Request sampleEnv (sampleNode 8) (fun _ => .ok pendingFilter) "req").result
        = .returned [] (some (NewInvalidParamsError "Unknown filter type"))
      ∧ (Request sampleEnv (sampleNode 8) (fun _ => .ok pendingFilter) "req").calls = [] := by
  have h := (Request_dispatch sampleEnv (sampleNode 8) (fun _ => .ok pendingFilter) "req"
    pendingFilter rfl).2.2 (by decide) (by decide)
  rw [h]
  exact ⟨rfl, rfl⟩

/-! ## Block filter: the chain height below the cursor -/

/-- C18, the code at the failing input: a block filter with cursor 5 polled
at height 3. The unsigned difference wraps to `2^64 - 2` and is the length
passed to `make`, which aborts; nothing is returned and the cursor is still
5. -/
theorem requestBlockFilter_height_below_cursor :
    uint64Sub 3 5 = 2 ^ 64 - 2
      ∧ (requestBlockFilter sampleEnv (sampleNode 3) (blockFilterAt 5)).result
        = .panicked "makeslice: len out of range"
      ∧ (requestBlockFilter sampleEnv (sampleNode 3) (blockFilterAt 5)).Data.Load
          "lastBlockNumber" = some (.uint64 5) := by
  decide

/-! ## UTXO selection: greedy against query-all -/

/-- C19 (the greedy result is a prefix of the query-all result): for one node
state and one list of accepted types, when the request with a positive
minimum sum returns a list, that list is a prefix of whatever list the
request with the minimum sum zero returns; and the latter request does return
a list when no entry is above the chain head (heights in `[0, 2^63)`). -/
theorem request_greedy_prefix_of_all (env : Env) (q : Qtum) (params params0 : GetUTXOsRequest)
    (resp : List UTXO) (blockCount : Int) (mempoolUxtoHashes : List String)
    (out : List QtumUTXO)
    (hA : NodeAnswers env q params resp blockCount mempoolUxtoHashes)
    (haddr : params0.Address = params.Address) (htypes : params0.Types = params.Types)
    (hzero : env.convertFromQtumToSatoshis params0.MinSumAmount = 0)
    (hmin : 0 < env.convertFromQtumToSatoshis params.MinSumAmount)
    (hs : request env q params = .returned (some out) none) :
    (∀ all, request env q params0 = .returned (some all) none → out <+: all)
      ∧ (blockCount < 2 ^ 63 → (∀ u ∈ resp, 0 ≤ u.Height ∧ u.Height ≤ blockCount) →
        ∃ all, request env q params0 = .returned (some all) none ∧ out <+: all) := by
  have hA0 : NodeAnswers env q params0 resp blockCount mempoolUxtoHashes := by
    obtain ⟨address, rawMempool, h1, h2, h3, h4, h5⟩ := hA
    exact ⟨address, rawMempool, by rw [haddr]; exact h1, h2, h3, h4, h5⟩
  have hq : decide (env.convertFromQtumToSatoshis params.MinSumAmount = 0) = false :=
    decide_eq_false (ne_of_gt hmin)
  have hq0 : decide (env.convertFromQtumToSatoshis params0.MinSumAmount = 0) = true :=
    decide_eq_true hzero
  rw [request_of_answers env q params resp blockCount mempoolUxtoHashes hA, hq] at hs
  obtain ⟨pre, post, e1, e2, _, _, _, _⟩ :=
    selectLoop_greedy env blockCount q.GetMatureBlockHeight mempoolUxtoHashes
      (allUtxoTypesOf params.Types) params.Types _ resp [] 0 out hmin hs
  have hpre : out <+: (keptPairs env blockCount q.GetMatureBlockHeight mempoolUxtoHashes
      (allUtxoTypesOf params.Types) params.Types resp).map Prod.snd := by
    rw [e2, e1, keptPairs_append, List.map_append, List.nil_append]
    exact List.prefix_append _ _
  have hreq0 := request_of_answers env q params0 resp blockCount mempoolUxtoHashes hA0
  rw [hq0, htypes] at hreq0
  constructor
  · intro all hall
    rw [hreq0] at hall
    have := selectLoop_all_returned env blockCount _ _ _ _ _ resp [] 0 all hall
    rw [this, List.nil_append]
    exact hpre
  · intro hbc hh
    have hna : ∀ u ∈ resp, ∀ msg, processUTXO env blockCount q.GetMatureBlockHeight
        mempoolUxtoHashes (allUtxoTypesOf params.Types) params.Types u ≠ .abort msg :=
      fun u hu msg =>
        processUTXO_ne_abort env blockCount _ _ _ _ u hbc (hh u hu).1 (hh u hu).2 msg
    refine ⟨_, ?_, hpre⟩
    rw [hreq0, selectLoop_all env blockCount _ _ _ _ _ resp [] 0 hna, List.nil_append]

/-- C19, witness: on the sample wallet the request for 7 satoshis returns the
first two of the three entries the request for 0 returns. -/
theorem request_greedy_prefix_of_all_witness :
    request sampleEnv (walletNode 105 sampleUTXOs) (sampleParams 7)
        = .returned (some [sampleEntry "a", sampleEntry "b"]) none
      ∧ ∃ all, request sampleEnv (walletNode 105 sampleUTXOs) (sampleParams 0)
          = .returned (some all) none
        ∧ [sampleEntry "a", sampleEntry "b"] <+: all := by
  have hs : request sampleEnv (walletNode 105 sampleUTXOs) (sampleParams 7)
      = .returned (some [sampleEntry "a", sampleEntry "b"]) none := by decide!
  exact ⟨hs, (request_greedy_prefix_of_all sampleEnv (walletNode 105 sampleUTXOs)
    (sampleParams 7) (sampleParams 0) sampleUTXOs 105 ["spent"] _
    (sampleAnswers 105 sampleUTXOs 7) rfl rfl (by decide!) (by decide!) hs).2
    (by norm_num) sampleUTXOs_wellformed.2⟩

/-! ## UTXO selection: the mempool check and the output index -/

/-- C20 (mempool matching ignores the output index): two node entries that
differ only in their output index get the same verdict of the mempool check
and, when both are kept, the same `Safe` flag, `false` when the txid is in
the in-flight set; and in a returned list every entry whose txid is the `ID`
of an input of a mempool transaction has `Safe = false`, whatever the output
index of the entry and of the input. -/
theorem mempool_check_ignores_output_index (env : Env) (q : Qtum) (params : GetUTXOsRequest)
    (resp : List UTXO) (blockCount : Int) (mempoolUxtoHashes : List String)
    (hA : NodeAnswers env q params resp blockCount mempoolUxtoHashes) :
    (∀ (utxo : UTXO) (n : Nat),
        Contains mempoolUxtoHashes ({ utxo with OutputIndex := n } : UTXO).TXID
            = Contains mempoolUxtoHashes utxo.TXID
          ∧ ∀ e1 e2,
            processUTXO env blockCount q.GetMatureBlockHeight mempoolUxtoHashes
                (allUtxoTypesOf params.Types) params.Types utxo = .keep e1 →
            processUTXO env blockCount q.GetMatureBlockHeight mempoolUxtoHashes
                (allUtxoTypesOf params.Types) params.Types { utxo with OutputIndex := n }
              = .keep e2 →
            e1.Safe = e2.Safe
              ∧ (utxo.TXID ∈ mempoolUxtoHashes → e1.Safe = false ∧ e2.Safe = false))
      ∧ ∀ (out : List QtumUTXO) (rawMempool : List String) (mempoolHash : String)
          (qtumTx : RawTransaction) (vin : Vin),
          request env q params = .returned (some out) none →
          q.GetRawMempool = .ok rawMempool → mempoolHash ∈ rawMempool →
          q.GetRawTransaction mempoolHash false = .ok qtumTx → vin ∈ qtumTx.Vins →
          ∀ e ∈ out, e.TXID = vin.ID → e.Safe = false := by
  constructor
  · intro utxo n
    refine ⟨rfl, fun e1 e2 h1 h2 => ?_⟩
    obtain ⟨_, _, _, _, _, _, s1⟩ := processUTXO_keep env blockCount _ _ _ _ utxo e1 h1
    obtain ⟨_, _, _, _, _, _, s2⟩ := processUTXO_keep env blockCount _ _ _ _ _ e2 h2
    have hsame : e1.Safe = e2.Safe := by rw [s1, s2]; rfl
    refine ⟨hsame, fun hm => ?_⟩
    have hc : Contains mempoolUxtoHashes utxo.TXID = true :=
      (Contains_iff_mem utxo.TXID mempoolUxtoHashes).mpr hm
    have : e1.Safe = false := by rw [s1, hc]; rfl
    exact ⟨this, hsame ▸ this⟩
  · intro out rawMempool mempoolHash qtumTx vin hs hraw hmem htx hvin e he hid
    have hin : vin.ID ∈ mempoolUxtoHashes := by
      obtain ⟨_, rawMempool', _, _, _, h4, h5⟩ := hA
      rw [hraw] at h4
      injection h4 with h4
      subst h4
      exact (mem_mempoolInputs q vin.ID rawMempool mempoolUxtoHashes h5).mpr
        ⟨mempoolHash, hmem, qtumTx, htx, vin, hvin, rfl⟩
    rw [request_of_answers env q params resp blockCount mempoolUxtoHashes hA] at hs
    rcases selectLoop_mem env blockCount _ _ _ _ _ _ resp [] 0 out hs e he with h1 | ⟨u, _, hk⟩
    · cases h1
    · obtain ⟨t1, _, _, _, _, _, s1⟩ := processUTXO_keep env blockCount _ _ _ _ u e hk
      have hc : Contains mempoolUxtoHashes u.TXID = true :=
        (Contains_iff_mem u.TXID mempoolUxtoHashes).mpr (by rw [← t1, hid]; exact hin)
      rw [s1, hc]
      rfl

/-- C20, witness: the mempool transaction spends output 0 of transaction
`spent`; the wallet's outputs 0 and 7 of that transaction are both returned
with `Safe = false`. -/
theorem mempool_check_ignores_output_index_witness :
    request sampleEnv
        (walletNode 105 [sampleUTXO "spent" 3 100,
          { sampleUTXO "spent" 3 100 with OutputIndex := 7 }]) (sampleParams 0)
        = .returned (some [{ sampleEntry "spent" with Safe := false },
            { sampleEntry "spent" with Safe := false, Vout := 7 }]) none
      ∧ ∀ e ∈ [{ sampleEntry "spent" with Safe := false },
            { sampleEntry "spent" with Safe := false, Vout := 7 }],
          e.TXID = (⟨"spent", 0⟩ : Vin).ID → e.Safe = false := by
  have hs : request sampleEnv
      (walletNode 105 [sampleUTXO "spent" 3 100,
        { sampleUTXO "spent" 3 100 with OutputIndex := 7 }]) (sampleParams 0)
      = .returned (some [{ sampleEntry "spent" with Safe := false },
          { sampleEntry "spent" with Safe := false, Vout := 7 }]) none := by decide!
  exact ⟨hs, (mempool_check_ignores_output_index sampleEnv _ (sampleParams 0) _ 105 ["spent"]
    (sampleAnswers 105 _ 0)).2 _ ["m1"] "m1" ⟨[⟨"spent", 0⟩]⟩ ⟨"spent", 0⟩ hs rfl
    (List.mem_singleton_self _) rfl (List.mem_singleton_self _)⟩

end Janus
